import Mathlib

/-!
Verification of the raw-mail header model and filter pipeline of the
`smtp-filter` library (`src/lib.rs`).

Buffers and strings are embedded as lists of natural numbers (`Byte`), one per
byte.  The multi-pattern case-insensitive search (`aho_corasick` with needles
`[header, "\r\n\r\n", "\n\n"]` and standard leftmost-first-ending semantics) is
embedded as an explicit scan over end positions.  The external `mailparse`
collaborators, which the specification declares opaque, are modelled from the
specification's words and documented as such.
-/

namespace SmtpFilter

/-- ASCII lower-casing of one byte, as performed by the case-insensitive
searcher (`ascii_case_insensitive(true)`). -/
def toLowerB (b : Nat) : Nat :=
  if 65 ≤ b ∧ b ≤ 90 then b + 32 else b

/-- Lower-case every byte of a list. -/
def lowerL (l : List Nat) : List Nat :=
  l.map toLowerB

/-- The needle `pat` matches the haystack `hay` at offset `i`,
ASCII-case-insensitively (the window `hay[i .. i+|pat|)` case-folds to `pat`). -/
def acMatchAt (hay pat : List Nat) (i : Nat) : Bool :=
  decide (lowerL ((hay.drop i).take pat.length) = lowerL pat)

/-- The bytes of `"\r\n\r\n"`, the CRLF end-of-headers marker. -/
def crlf2 : List Nat := [13, 10, 13, 10]

/-- The bytes of `"\n\n"`, the LF end-of-headers marker. -/
def lf2 : List Nat := [10, 10]

/-- A match reported by the searcher: start offset, end offset, pattern id. -/
structure AcMatch where
  start : Nat
  stop : Nat
  pattern : Nat
deriving DecidableEq, Repr

/-- Report a match of pattern `pat` (with id `k`) ending exactly at `e`,
if there is one. -/
def tryPat (hay pat : List Nat) (k e : Nat) : Option AcMatch :=
  if pat.length ≤ e ∧ acMatchAt hay pat (e - pat.length) = true then
    some ⟨e - pat.length, e, k⟩
  else none

/-- All matches ending exactly at `e`, preferring lower pattern ids.  The
searcher is built over the three needles `[header, "\r\n\r\n", "\n\n"]`; for a
header needle `"\n" ++ name` with a newline-free nonempty `name` at most one of
the three patterns can end at any given offset, so the id tie-break never
fires and this agrees with the automaton's standard semantics. -/
def acFindAt (hay p0 : List Nat) (e : Nat) : Option AcMatch :=
  (tryPat hay p0 0 e).orElse fun _ =>
    (tryPat hay crlf2 1 e).orElse fun _ =>
      tryPat hay lf2 2 e

/-- Scan end offsets `e, e+1, ...` (at most `fuel` of them) and return the
first reported match. -/
def scanFirst (f : Nat → Option AcMatch) : Nat → Nat → Option AcMatch
  | 0, _ => none
  | fuel + 1, e =>
    match f e with
    | some m => some m
    | none => scanFirst f fuel (e + 1)

/-- The `AhoCorasick::find` of the source: the match whose end offset is
smallest (standard match semantics: a match is reported as soon as the
automaton sees its final byte). -/
def acFind (hay p0 : List Nat) : Option AcMatch :=
  scanFirst (acFindAt hay p0) (hay.length + 1) 0

/-- Embedding of `UnparsedMail::get_header_idx`: search for the newline-prefixed `header`
together with both end-of-headers markers; fail unless the header needle is
the first of the three patterns found, and in that case return the match's
start offset plus two. -/
def get_header_idx (contents header : List Nat) : Option Nat :=
  match acFind contents header with
  | none => none
  | some first => if first.pattern ≠ 0 then none else some (first.start + 2)

/-- The parsed header returned by the external parsing collaborator: the
header's name and the raw bytes of its value. -/
structure MailHeader where
  name : List Nat
  valueRaw : List Nat
deriving DecidableEq, Repr

/-- Modelled from the spec: the external header-token parsing collaborator
(`mailparse::parse_header`), an "opaque capability that, given raw bytes,
returns a parsed header name/value".  The model parses one unfolded header
line: the name is everything before the first colon (failing if a newline
comes first or no colon exists), and the raw value is the remainder of the
line after the colon with leading spaces/tabs skipped and a trailing carriage
return removed. -/
def parse_header (b : List Nat) : Option MailHeader :=
  match b.findIdx? fun c => c == 58 || c == 10 with
  | none => none
  | some i =>
    if b.getD i 0 == 10 then none
    else
      let value0 := ((b.drop (i + 1)).dropWhile fun c => c == 32 || c == 9).takeWhile
        fun c => c != 10
      let value := if value0.getLast? == some 13 then value0.dropLast else value0
      some ⟨b.take i, value⟩

/-- Embedding of `MailHeader::get_value` of the collaborator, modelled as returning the raw
value bytes. -/
def MailHeader.get_value (h : MailHeader) : List Nat :=
  h.valueRaw

/-- Embedding of `UnparsedMail::get_header_raw`: locate the header (the needle must start
with a newline) and parse the buffer from the returned offset. -/
def get_header_raw (contents header : List Nat) : Option MailHeader :=
  (get_header_idx contents header).bind fun idx => parse_header (contents.drop idx)

/-- One step of `memchr::memmem::find`: try offsets `i, i+1, ...`. -/
def memfindFrom (hay needle : List Nat) : Nat → Nat → Option Nat
  | 0, _ => none
  | fuel + 1, i =>
    if (hay.drop i).take needle.length = needle then some i
    else memfindFrom hay needle fuel (i + 1)

/-- Embedding of `memchr::memmem::find`: offset of the first exact occurrence of `needle`
in `hay`. -/
def memfind (hay needle : List Nat) : Option Nat :=
  memfindFrom hay needle (hay.length + 1) 0

/-- Embedding of `Vec::copy_within(srcStart..srcEnd, dest)` with `memmove` semantics: the
copied bytes are read from the original list. -/
def copy_within (l : List Nat) (srcStart srcEnd dest : Nat) : List Nat :=
  (List.range l.length).map fun i =>
    if dest ≤ i ∧ i < dest + (srcEnd - srcStart) then l.getD (srcStart + (i - dest)) 0
    else l.getD i 0

/-- Embedding of `contents[start..start + s.len()].copy_from_slice(s)`. -/
def write_range (l : List Nat) (start : Nat) (s : List Nat) : List Nat :=
  (List.range l.length).map fun i =>
    if start ≤ i ∧ i < start + s.length then s.getD (i - start) 0
    else l.getD i 0

/-- Embedding of `Vec::resize(n, 0)` for a growing resize: keep the existing bytes and pad
with zeros up to length `n`. -/
def vec_resize (l : List Nat) (n : Nat) : List Nat :=
  l.take n ++ List.replicate (n - l.length) 0

/-- Embedding of `Vec::truncate(n)`. -/
def vec_truncate (l : List Nat) (n : Nat) : List Nat :=
  l.take n

/-- Embedding of `UnparsedMail::set_header` on the byte buffer: locate `"\n" ++ header`,
parse the header there, find the first occurrence of the parsed raw value from
that offset, then splice the new value `s` over that span, shifting the tail
left (shrinking) or right after growing the buffer.  Any located/parse failure
makes the whole operation a no-op. -/
def set_header (contents header s : List Nat) : List Nat :=
  (do
    let needle := 10 :: header
    let idx ← get_header_idx contents needle
    let h ← parse_header (contents.drop idx)
    let current_len := h.valueRaw.length
    let off ← memfind (contents.drop idx) h.valueRaw
    let start_value := idx + off
    let end_value := start_value + current_len
    let c :=
      if s.length < current_len then
        vec_truncate
          (copy_within contents end_value contents.length
            (end_value + s.length - current_len))
          (contents.length + s.length - current_len)
      else
        copy_within (vec_resize contents (contents.length + s.length - current_len))
          end_value contents.length (end_value + s.length - current_len)
    pure (write_range c start_value s)).getD contents

/-- A single mail address of the external address model (`mailparse::SingleInfo`):
an optional display name and the address itself. -/
structure SingleInfo where
  display_name : Option (List Nat)
  addr : List Nat
deriving DecidableEq, Repr

/-- A named group of addresses (`mailparse::GroupInfo`). -/
structure GroupInfo where
  group_name : List Nat
  addrs : List SingleInfo
deriving DecidableEq, Repr

/-- One entry of an address list (`mailparse::MailAddr`). -/
inductive MailAddr where
  | Single (s : SingleInfo)
  | Group (g : GroupInfo)
deriving DecidableEq, Repr

/-- A list of addresses (`mailparse::MailAddrList`). -/
abbrev MailAddrList := List MailAddr

/-- Embedding of `utils::iter_addrs`: flatten an address list into its single addresses,
expanding groups. -/
def iter_addrs (addrs : MailAddrList) : List SingleInfo :=
  addrs.flatMap fun a =>
    match a with
    | .Single s => [s]
    | .Group g => g.addrs

/-- Strip leading and trailing spaces/tabs from a byte string. -/
def trimBytes (l : List Nat) : List Nat :=
  ((l.dropWhile fun c => c == 32 || c == 9).reverse.dropWhile
    fun c => c == 32 || c == 9).reverse

/-- Split a byte string at commas. -/
def splitCommas (l : List Nat) : List (List Nat) :=
  l.splitOn 44

/-- Modelled from the spec: one token of the external address parser.  A token
containing `<` yields the bytes between the angle brackets as the address and
the trimmed text before `<` as the display name (failing when the `>` is
missing); any other token is itself the address, and blank tokens are
skipped. -/
def parseAddrToken (t : List Nat) : Option (List SingleInfo) :=
  let t := trimBytes t
  if t.contains 60 then
    let dn := trimBytes (t.takeWhile fun c => c != 60)
    let rest := (t.dropWhile fun c => c != 60).drop 1
    if rest.contains 62 then
      some [⟨if dn = [] then none else some dn, rest.takeWhile fun c => c != 62⟩]
    else none
  else if t = [] then some [] else some [⟨none, t⟩]

/-- Modelled from the spec: the external address parsing collaborator
(`mailparse::addrparse_header`), an "opaque capability that, given raw bytes,
returns ... a structured list of addresses"; the model splits the header's
value at commas and parses each token, failing when any token fails. -/
def addrparse_header (h : MailHeader) : Option MailAddrList :=
  ((splitCommas h.get_value).mapM parseAddrToken).map fun ls =>
    (ls.flatten).map MailAddr.Single

/-- Intercalate `", "` between rendered items. -/
def joinComma (ls : List (List Nat)) : List Nat :=
  match ls with
  | [] => []
  | x :: xs => x ++ xs.flatMap fun y => 44 :: 32 :: y

/-- Modelled from the spec: the `Display` of a single address — `"name <addr>"`
when a display name is present, else the bare address. -/
def displaySingle (s : SingleInfo) : List Nat :=
  match s.display_name with
  | some d => d ++ 32 :: 60 :: (s.addr ++ [62])
  | none => s.addr

/-- Modelled from the spec: the `Display` of one address-list entry. -/
def displayAddr (a : MailAddr) : List Nat :=
  match a with
  | .Single s => displaySingle s
  | .Group g => g.group_name ++ 58 :: 32 :: (joinComma (g.addrs.map displaySingle) ++ [59])

/-- Modelled from the spec: the `Display` of a `MailAddrList` — its entries
joined by `", "` ("recipients header mirrors the new list verbatim"). -/
def displayAddrList (l : MailAddrList) : List Nat :=
  joinComma (l.map displayAddr)

/-- The needle `"\nto:"` of the `get_header_addr!` expansion for recipients. -/
def toNeedle : List Nat := [10, 116, 111, 58]

/-- The needle `"\nfrom:"`. -/
def fromNeedle : List Nat := [10, 102, 114, 111, 109, 58]

/-- The needle `"\ncc:"`. -/
def ccNeedle : List Nat := [10, 99, 99, 58]

/-- The needle `"\nbcc:"`. -/
def bccNeedle : List Nat := [10, 98, 99, 99, 58]

/-- The needle `"\nsubject:"`. -/
def subjectNeedle : List Nat := [10, 115, 117, 98, 106, 101, 99, 116, 58]

/-- The needle `"\nuser-agent:"`. -/
def uaNeedle : List Nat := [10, 117, 115, 101, 114, 45, 97, 103, 101, 110, 116, 58]

/-- The bytes of `"to"`, the header mutated by `set_recipient`. -/
def toName : List Nat := [116, 111]

/-- Embedding of `UnparsedMail`: the raw buffer, the envelope sender and recipient lists,
and the six memoized cache slots. -/
structure UnparsedMail where
  contents : List Nat
  from_ : MailAddrList
  to_ : MailAddrList
  recipients : Option MailAddrList
  sender : Option MailAddrList
  cc : Option MailAddrList
  bcc : Option MailAddrList
  subject : Option (List Nat)
  user_agent : Option (List Nat)
deriving DecidableEq, Repr

/-- Embedding of `UnparsedMail::new`. -/
def UnparsedMail.new (buf : List Nat) (from_ to_ : MailAddrList) : UnparsedMail :=
  ⟨buf, from_, to_, none, none, none, none, none, none⟩

/-- The shared body of the `get_header_addr!` macro expansions: on a cache
hit return the cached list; otherwise locate and parse the header, parse the
addresses, substitute the empty list on any failure, and store the result. -/
def getHeaderAddr (m : UnparsedMail) (needle : List Nat)
    (read : UnparsedMail → Option MailAddrList)
    (store : UnparsedMail → MailAddrList → UnparsedMail) :
    MailAddrList × UnparsedMail :=
  match read m with
  | some v => (v, m)
  | none =>
    let v := ((get_header_raw m.contents needle).bind addrparse_header).getD []
    (v, store m v)

/-- Embedding of `get_header_addr!(get_recipients, recipients, "to:")`. -/
def UnparsedMail.get_recipients (m : UnparsedMail) : MailAddrList × UnparsedMail :=
  getHeaderAddr m toNeedle (fun m => m.recipients) fun m v => { m with recipients := some v }

/-- Embedding of `get_header_addr!(get_sender, sender, "from:")`. -/
def UnparsedMail.get_sender (m : UnparsedMail) : MailAddrList × UnparsedMail :=
  getHeaderAddr m fromNeedle (fun m => m.sender) fun m v => { m with sender := some v }

/-- Embedding of `get_header_addr!(get_cc, cc, "cc:")`. -/
def UnparsedMail.get_cc (m : UnparsedMail) : MailAddrList × UnparsedMail :=
  getHeaderAddr m ccNeedle (fun m => m.cc) fun m v => { m with cc := some v }

/-- Embedding of `get_header_addr!(get_bcc, bcc, "bcc:")`. -/
def UnparsedMail.get_bcc (m : UnparsedMail) : MailAddrList × UnparsedMail :=
  getHeaderAddr m bccNeedle (fun m => m.bcc) fun m v => { m with bcc := some v }

/-- Embedding of `UnparsedMail::get_subject`: cached subject string, empty on failure. -/
def UnparsedMail.get_subject (m : UnparsedMail) : List Nat × UnparsedMail :=
  match m.subject with
  | some v => (v, m)
  | none =>
    let v := ((get_header_raw m.contents subjectNeedle).map MailHeader.get_value).getD []
    (v, { m with subject := some v })

/-- Embedding of `UnparsedMail::get_ua`: cached user-agent string, empty on failure. -/
def UnparsedMail.get_ua (m : UnparsedMail) : List Nat × UnparsedMail :=
  match m.user_agent with
  | some v => (v, m)
  | none =>
    let v := ((get_header_raw m.contents uaNeedle).map MailHeader.get_value).getD []
    (v, { m with user_agent := some v })

/-- Embedding of `BasicMail::into_parts` for `UnparsedMail`. -/
def UnparsedMail.into_parts (m : UnparsedMail) : List Nat × MailAddrList × MailAddrList :=
  (m.contents, m.from_, m.to_)

/-- Embedding of `BasicMail::header_recipients` for `UnparsedMail`. -/
def UnparsedMail.header_recipients (m : UnparsedMail) : MailAddrList × UnparsedMail :=
  m.get_recipients

/-- Embedding of `BasicMail::header_sender` for `UnparsedMail`. -/
def UnparsedMail.header_sender (m : UnparsedMail) : MailAddrList × UnparsedMail :=
  m.get_sender

/-- Embedding of `BasicMail::recipients` for `UnparsedMail`: the envelope recipient list. -/
def UnparsedMail.recipientsEnv (m : UnparsedMail) : MailAddrList × UnparsedMail :=
  (m.to_, m)

/-- Embedding of `BasicMail::sender` for `UnparsedMail`: the envelope sender list. -/
def UnparsedMail.senderEnv (m : UnparsedMail) : MailAddrList × UnparsedMail :=
  (m.from_, m)

/-- Embedding of `BasicMail::cc` for `UnparsedMail`. -/
def UnparsedMail.ccAddrs (m : UnparsedMail) : MailAddrList × UnparsedMail :=
  m.get_cc

/-- Embedding of `BasicMail::bcc` for `UnparsedMail`. -/
def UnparsedMail.bccAddrs (m : UnparsedMail) : MailAddrList × UnparsedMail :=
  m.get_bcc

/-- Embedding of `BasicMail::subject` for `UnparsedMail`. -/
def UnparsedMail.subjectStr (m : UnparsedMail) : List Nat × UnparsedMail :=
  m.get_subject

/-- Embedding of `BasicMail::user_agent` for `UnparsedMail`: `Some` only when the cached
string is nonempty. -/
def UnparsedMail.userAgent (m : UnparsedMail) : Option (List Nat) × UnparsedMail :=
  let (s, m') := m.get_ua
  if s = [] then (none, m') else (some s, m')

/-- Embedding of `BasicMail::header_domain` for `UnparsedMail`: the text after `@` in the
first header-declared recipient address. -/
def UnparsedMail.header_domain (m : UnparsedMail) : Option (List Nat) × UnparsedMail :=
  let (addrs, m') := m.header_recipients
  match (iter_addrs addrs).head? with
  | none => (none, m')
  | some addr =>
    match addr.addr.findIdx? fun c => c == 64 with
    | none => (none, m')
    | some idx => (some (addr.addr.drop (idx + 1)), m')

/-- Embedding of `BasicMail::domain` for `UnparsedMail`: the text after `@` in the first
envelope recipient address. -/
def UnparsedMail.domain (m : UnparsedMail) : Option (List Nat) × UnparsedMail :=
  let (addrs, m') := m.recipientsEnv
  match (iter_addrs addrs).head? with
  | none => (none, m')
  | some addr =>
    match addr.addr.findIdx? fun c => c == 64 with
    | none => (none, m')
    | some idx => (some (addr.addr.drop (idx + 1)), m')

/-- Embedding of `BasicMail::set_header` for `UnparsedMail`: splice the buffer, leaving the
envelope lists and caches untouched. -/
def UnparsedMail.setHeader (m : UnparsedMail) (header s : List Nat) : UnparsedMail :=
  { m with contents := set_header m.contents header s }

/-- Embedding of `RecipientDisclosure`: how the rewritten `to` header discloses the new
recipients. -/
inductive RecipientDisclosure where
  | Open
  | Undisclosed (name : List Nat)
  | Keep
  | Sender (name : List Nat)
deriving DecidableEq, Repr

/-- The bytes of `"noreply@localhost"`, the placeholder sender. -/
def noreplyLocalhost : List Nat :=
  [110, 111, 114, 101, 112, 108, 121, 64, 108, 111, 99, 97, 108, 104, 111, 115, 116]

/-- Embedding of `BasicMail::set_recipient` for `UnparsedMail`: update the `to` header
according to the disclosure policy, then replace the envelope recipient list
with the new recipients. -/
def UnparsedMail.set_recipient (m : UnparsedMail) (recipients : MailAddrList)
    (disclosure : RecipientDisclosure) : UnparsedMail :=
  let m' :=
    match disclosure with
    | .Open => m.setHeader toName (displayAddrList recipients)
    | .Undisclosed name => m.setHeader toName (name ++ [32, 60, 62])
    | .Keep => m
    | .Sender name =>
      let hs := m.header_sender
      let s0 := (iter_addrs hs.1).head?
      let s1 :=
        match s0 with
        | some s => some s
        | none => (iter_addrs (hs.2.senderEnv).1).head?
      let senderAddr :=
        match s1 with
        | some sender => sender.addr
        | none => noreplyLocalhost
      hs.2.setHeader toName (name ++ 32 :: 60 :: (senderAddr ++ [62]))
  { m' with to_ := recipients }

/-- Embedding of `Error`: an SMTP status code plus a free-text message. -/
structure Error where
  status : Nat
  message : String
deriving DecidableEq, Repr

/-- The `Display` of `Error`: `"<status> <message>"`. -/
def Error.render (e : Error) : String :=
  toString e.status ++ " " ++ e.message

/-- Embedding of `Action`: the three-way outcome of one filter step. -/
inductive Action where
  | Continue
  | Ignore
  | Reject (e : Error)
deriving DecidableEq, Repr

/-- Embedding of `From<bool> for Action`. -/
def Action.ofBool (b : Bool) : Action :=
  if b then .Continue else .Ignore

/-- Embedding of `From<Option<()>> for Action`. -/
def Action.ofOption (o : Option Unit) : Action :=
  if o.isSome then .Continue else .Ignore

/-- Embedding of `From<Result<(), Error>> for Action`. -/
def Action.ofResult (r : Except Error Unit) : Action :=
  match r with
  | .ok _ => .Continue
  | .error e => .Reject e

/-- A filter step: the mutable borrow of the mail becomes explicit state
passing, so a step maps a mail to an action and the updated mail. -/
def FilterFn (M : Type) : Type :=
  M → Action × M

/-- Embedding of `Filter`: the ordered list of steps. -/
structure Filter (M : Type) where
  filters : List (FilterFn M)

/-- The outcome of the step loop of `Filter::process`: either the loop
finished (with the recorded error, if a step rejected) or a step returned
`Ignore` and processing stopped for a silent accept. -/
inductive StepOutcome (M : Type) where
  | finished (e : Option Error) (mail : M)
  | ignored (mail : M)

/-- The step loop of `Filter::process`: run steps in order; `Continue`
proceeds, `Ignore` stops for a silent accept, `Reject` records the error and
breaks. -/
def runSteps {M : Type} : List (FilterFn M) → M → StepOutcome M
  | [], mail => .finished none mail
  | f :: fs, mail =>
    match f mail with
    | (.Continue, m') => runSteps fs m'
    | (.Ignore, m') => .ignored m'
    | (.Reject err, m') => .finished (some err) m'

/-- Embedding of `Filter::process`: run the loop; a recorded rejection fails with the
rendered error, otherwise succeed with the mail's decomposed parts. -/
def Filter.process {M : Type} (fl : Filter M)
    (into_parts : M → List Nat × MailAddrList × MailAddrList) (mail : M) :
    Except String (List Nat × MailAddrList × MailAddrList) :=
  match runSteps fl.filters mail with
  | .ignored m => .ok (into_parts m)
  | .finished none m => .ok (into_parts m)
  | .finished (some err) _ => .error err.render

/-- A step that always continues. -/
def contStep : FilterFn UnparsedMail := fun m => (.Continue, m)

/-- A step that rejects with status 550 and message `"no"`. -/
def rejectStep550 : FilterFn UnparsedMail := fun m => (.Reject ⟨550, "no"⟩, m)

/-- A step that silently accepts. -/
def ignoreStep : FilterFn UnparsedMail := fun m => (.Ignore, m)

/-- A small concrete mail value. -/
def demoMail : UnparsedMail := UnparsedMail.new [] [] []

/-- The sender text substituted by the `Sender` disclosure policy: the first
header-declared sender address, else the first envelope sender address, else
the placeholder `noreply@localhost`. -/
def senderFallback (m : UnparsedMail) : List Nat :=
  match (iter_addrs (m.header_sender).1).head? with
  | some si => si.addr
  | none =>
    match (iter_addrs m.from_).head? with
    | some si => si.addr
    | none => noreplyLocalhost

/-- The bytes of `"alice@example.com"`. -/
def aliceAddr : List Nat :=
  [97, 108, 105, 99, 101, 64, 101, 120, 97, 109, 112, 108, 101, 46, 99, 111, 109]

/-- The bytes of `"bob@example.com"`. -/
def bobAddr : List Nat :=
  [98, 111, 98, 64, 101, 120, 97, 109, 112, 108, 101, 46, 99, 111, 109]

/-- A one-recipient target list, `[alice@example.com]`. -/
def demoL : MailAddrList := [MailAddr.Single ⟨none, aliceAddr⟩]

/-- A mail with an empty buffer whose envelope sender is `bob@example.com`. -/
def demoMail6 : UnparsedMail := UnparsedMail.new [] [MailAddr.Single ⟨none, bobAddr⟩] []

/-- The bytes of the buffer `"x\nto: o\r\n\r\n"`: a locatable `to` header
whose raw value `"o"` also occurs inside the truncated header name parsed at
the located offset. -/
def c1buf : List Nat := [120, 10, 116, 111, 58, 32, 111, 13, 10, 13, 10]

/-- The bytes of the header name `"to"`. -/
def c1H : List Nat := [116, 111]

/-- The bytes of the new value `"zz"` (positive length, no newline). -/
def c1V : List Nat := [122, 122]

/-- The bytes of the buffer `"x\nto: abc\r\n\r\nb"`. -/
def c2buf : List Nat := [120, 10, 116, 111, 58, 32, 97, 98, 99, 13, 10, 13, 10, 98]

/-- The bytes of the buffer `"x\nto: a\r\n\r\n"`. -/
def c3buf : List Nat := [120, 10, 116, 111, 58, 32, 97, 13, 10, 13, 10]

/-- The bytes of the header name `"to:"`. -/
def c3name : List Nat := [116, 111, 58]

/-- The bytes of the buffer `"x\nSubject: hi\r\n\r\n"` (mixed case). -/
def c3wbuf : List Nat :=
  [120, 10, 83, 117, 98, 106, 101, 99, 116, 58, 32, 104, 105, 13, 10, 13, 10]

/-- The bytes of the lower-case header name `"subject:"`. -/
def c3wname : List Nat := [115, 117, 98, 106, 101, 99, 116, 58]

/-- The bytes of the buffer `"to: x\r\n\r\nbody"`: the header `to` occupies
the very first line. -/
def c9buf : List Nat :=
  [116, 111, 58, 32, 120, 13, 10, 13, 10, 98, 111, 100, 121]

/-- The bytes of the header name `"to:"` searched for in `c9buf`. -/
def c9name : List Nat := [116, 111, 58]

/-! Lemmas about case folding and case-insensitive window matches. -/

theorem toLowerB_eq_ten_iff {b : Nat} : toLowerB b = 10 ↔ b = 10 := by
  unfold toLowerB; split_ifs with h <;> constructor <;> intro h2 <;> omega

theorem toLowerB_eq_thirteen_iff {b : Nat} : toLowerB b = 13 ↔ b = 13 := by
  unfold toLowerB; split_ifs with h <;> constructor <;> intro h2 <;> omega

/-- The propositional form of `acMatchAt`, with the containment of the window
made explicit. -/
def MatchesAt (hay p : List Nat) (i : Nat) : Prop :=
  i + p.length ≤ hay.length ∧ lowerL ((hay.drop i).take p.length) = lowerL p

theorem acMatchAt_iff {hay p : List Nat} {i : Nat} (hp : p ≠ []) :
    acMatchAt hay p i = true ↔ MatchesAt hay p i := by
  unfold acMatchAt MatchesAt
  rw [decide_eq_true_iff]
  constructor
  · intro h
    refine ⟨?_, h⟩
    have hlen := congrArg List.length h
    simp only [lowerL, List.length_map, List.length_take, List.length_drop] at hlen
    have hpl : 0 < p.length := List.length_pos.mpr hp
    omega
  · exact fun h => h.2

theorem matchesAt_byte {hay p : List Nat} {i k : Nat} (h : MatchesAt hay p i)
    (hk : k < p.length) :
    toLowerB (hay.getD (i + k) 0) = toLowerB (p.getD k 0) := by
  obtain ⟨hle, heq⟩ := h
  have h1 := congrArg (fun l => l[k]?) heq
  simp only [lowerL, List.getElem?_map] at h1
  rw [List.getElem?_take] at h1
  have hik : i + k < hay.length := by omega
  rw [if_pos hk, List.getElem?_drop, List.getElem?_eq_getElem hik,
    List.getElem?_eq_getElem hk] at h1
  simp only [Option.map_some'] at h1
  rw [List.getD_eq_getElem _ _ hik, List.getD_eq_getElem _ _ hk]
  exact Option.some.inj h1

theorem needle_len {H : List Nat} : (10 :: H).length = 1 + H.length := by
  simp [Nat.add_comm]

theorem needle_byte0 {hay H : List Nat} {i : Nat} (h : MatchesAt hay (10 :: H) i) :
    hay.getD i 0 = 10 := by
  have h0 : toLowerB (hay.getD (i + 0) 0) = toLowerB ((10 :: H).getD 0 0) :=
    matchesAt_byte h (by simp)
  have hg : (10 :: H).getD 0 0 = 10 := rfl
  have hl : toLowerB 10 = 10 := by decide
  rw [Nat.add_zero, hg, hl] at h0
  exact toLowerB_eq_ten_iff.mp h0

theorem needle_byte_inner {hay H : List Nat} {i k : Nat} (h : MatchesAt hay (10 :: H) i)
    (hk : k < H.length) :
    toLowerB (hay.getD (i + 1 + k) 0) = toLowerB (H.getD k 0) := by
  have h0 : toLowerB (hay.getD (i + (k + 1)) 0) = toLowerB ((10 :: H).getD (k + 1) 0) :=
    matchesAt_byte h (by simpa using Nat.succ_lt_succ hk)
  have harr : i + (k + 1) = i + 1 + k := by omega
  have hgd : (10 :: H).getD (k + 1) 0 = H.getD k 0 := by
    simp [List.getD]
  rw [harr, hgd] at h0
  exact h0

theorem needle_inner_ne {hay H : List Nat} {i k : Nat} (h : MatchesAt hay (10 :: H) i)
    (h10 : 10 ∉ H) (h13 : 13 ∉ H) (hk : k < H.length) :
    hay.getD (i + 1 + k) 0 ≠ 10 ∧ hay.getD (i + 1 + k) 0 ≠ 13 := by
  have hb := needle_byte_inner h hk
  have hmem : H.getD k 0 ∈ H := by
    rw [List.getD_eq_getElem _ _ hk]; exact List.getElem_mem hk
  constructor
  · intro hzero
    rw [hzero] at hb
    have : toLowerB 10 = 10 := by decide
    rw [this] at hb
    exact h10 (toLowerB_eq_ten_iff.mp hb.symm ▸ hmem)
  · intro hzero
    rw [hzero] at hb
    have : toLowerB 13 = 13 := by decide
    rw [this] at hb
    exact h13 (toLowerB_eq_thirteen_iff.mp hb.symm ▸ hmem)

theorem lf2_facts {hay : List Nat} {j : Nat} (h : MatchesAt hay lf2 j) :
    hay.getD j 0 = 10 ∧ hay.getD (j + 1) 0 = 10 ∧ j + 2 ≤ hay.length := by
  have hlen : lf2.length = 2 := by decide
  have h0 : toLowerB (hay.getD (j + 0) 0) = toLowerB (lf2.getD 0 0) :=
    matchesAt_byte h (by decide)
  have h1 : toLowerB (hay.getD (j + 1) 0) = toLowerB (lf2.getD 1 0) :=
    matchesAt_byte h (by decide)
  have hg0 : lf2.getD 0 0 = 10 := by decide
  have hg1 : lf2.getD 1 0 = 10 := by decide
  have hl10 : toLowerB 10 = 10 := by decide
  rw [hg0, hl10] at h0
  rw [hg1, hl10] at h1
  refine ⟨?_, ?_, ?_⟩
  · simpa using toLowerB_eq_ten_iff.mp h0
  · exact toLowerB_eq_ten_iff.mp h1
  · have := h.1; rw [hlen] at this; exact this

theorem crlf2_facts {hay : List Nat} {j : Nat} (h : MatchesAt hay crlf2 j) :
    hay.getD j 0 = 13 ∧ hay.getD (j + 1) 0 = 10 ∧ hay.getD (j + 2) 0 = 13 ∧
      hay.getD (j + 3) 0 = 10 ∧ j + 4 ≤ hay.length := by
  have hlen : crlf2.length = 4 := by decide
  have h0 : toLowerB (hay.getD (j + 0) 0) = toLowerB (crlf2.getD 0 0) :=
    matchesAt_byte h (by decide)
  have h1 : toLowerB (hay.getD (j + 1) 0) = toLowerB (crlf2.getD 1 0) :=
    matchesAt_byte h (by decide)
  have h2 : toLowerB (hay.getD (j + 2) 0) = toLowerB (crlf2.getD 2 0) :=
    matchesAt_byte h (by decide)
  have h3 : toLowerB (hay.getD (j + 3) 0) = toLowerB (crlf2.getD 3 0) :=
    matchesAt_byte h (by decide)
  have e13 : toLowerB 13 = 13 := by decide
  have e10 : toLowerB 10 = 10 := by decide
  have hg0 : crlf2.getD 0 0 = 13 := by decide
  have hg1 : crlf2.getD 1 0 = 10 := by decide
  have hg2 : crlf2.getD 2 0 = 13 := by decide
  have hg3 : crlf2.getD 3 0 = 10 := by decide
  rw [hg0, e13] at h0
  rw [hg1, e10] at h1
  rw [hg2, e13] at h2
  rw [hg3, e10] at h3
  refine ⟨?_, ?_, ?_, ?_, ?_⟩
  · simpa using toLowerB_eq_thirteen_iff.mp h0
  · exact toLowerB_eq_ten_iff.mp h1
  · exact toLowerB_eq_thirteen_iff.mp h2
  · exact toLowerB_eq_ten_iff.mp h3
  · have := h.1; rw [hlen] at this; exact this

/-! Order of the needle match and the blank-line-marker matches: for a
nonempty newline-free and carriage-return-free header name, the match that
starts first also ends first. -/

theorem lf2_after {hay H : List Nat} {i j : Nat} (h10 : 10 ∉ H) (h13 : 13 ∉ H)
    (hn : MatchesAt hay (10 :: H) i) (hm : MatchesAt hay lf2 j) (hij : i < j) :
    i + 1 + H.length < j + 2 := by
  by_contra hcon
  push_neg at hcon
  obtain ⟨hj0, hj1, hj2⟩ := lf2_facts hm
  have hk : j - i - 1 < H.length := by omega
  have hne := (needle_inner_ne hn h10 h13 hk).1
  have harr : i + 1 + (j - i - 1) = j := by omega
  rw [harr] at hne
  exact hne hj0

theorem crlf2_after {hay H : List Nat} {i j : Nat} (h10 : 10 ∉ H) (h13 : 13 ∉ H)
    (hn : MatchesAt hay (10 :: H) i) (hm : MatchesAt hay crlf2 j) (hij : i < j) :
    i + 1 + H.length < j + 4 := by
  by_contra hcon
  push_neg at hcon
  obtain ⟨hj0, _, _, _, _⟩ := crlf2_facts hm
  have hk : j - i - 1 < H.length := by omega
  have hne := (needle_inner_ne hn h10 h13 hk).2
  have harr : i + 1 + (j - i - 1) = j := by omega
  rw [harr] at hne
  exact hne hj0

theorem lf2_before {H : List Nat} {i j : Nat} (hH : H ≠ [])
    (hij : j < i) : j + 2 < i + 1 + H.length := by
  have hHl : 0 < H.length := List.length_pos.mpr hH
  omega

theorem crlf2_before {hay H : List Nat} {i j : Nat} (hH : H ≠ []) (h10 : 10 ∉ H)
    (h13 : 13 ∉ H) (hn : MatchesAt hay (10 :: H) i) (hm : MatchesAt hay crlf2 j)
    (hij : j < i) : j + 4 < i + 1 + H.length := by
  have hHl : 0 < H.length := List.length_pos.mpr hH
  obtain ⟨hc0, hc1, hc2, hc3, hclen⟩ := crlf2_facts hm
  have hn0 := needle_byte0 hn
  by_contra hcon
  push_neg at hcon
  have hij2 : i = j + 1 ∨ i = j + 2 := by omega
  rcases hij2 with rfl | rfl
  · have hne := (needle_inner_ne hn h10 h13 hHl).2
    have harr : j + 1 + 1 + 0 = j + 2 := by omega
    rw [harr] at hne
    exact hne hc2
  · rw [hn0] at hc2
    omega

/-! Characterization of the end-position scan. -/

theorem tryPat_some {hay pat : List Nat} {k e : Nat} {m : AcMatch}
    (h : tryPat hay pat k e = some m) :
    m = ⟨e - pat.length, e, k⟩ ∧ pat.length ≤ e ∧
      acMatchAt hay pat (e - pat.length) = true := by
  unfold tryPat at h
  split_ifs at h with hc
  exact ⟨(Option.some.inj h).symm, hc.1, hc.2⟩

theorem tryPat_none {hay pat : List Nat} {k e : Nat} (h : tryPat hay pat k e = none) :
    ¬(pat.length ≤ e ∧ acMatchAt hay pat (e - pat.length) = true) := by
  unfold tryPat at h
  split_ifs at h with hc
  exact hc

theorem tryPat_of_match {hay pat : List Nat} {k e : Nat} (h1 : pat.length ≤ e)
    (h2 : acMatchAt hay pat (e - pat.length) = true) :
    tryPat hay pat k e = some ⟨e - pat.length, e, k⟩ := by
  unfold tryPat
  rw [if_pos ⟨h1, h2⟩]

theorem acFindAt_eq (hay p0 : List Nat) (e : Nat) :
    acFindAt hay p0 e =
      match tryPat hay p0 0 e with
      | some m => some m
      | none =>
        match tryPat hay crlf2 1 e with
        | some m => some m
        | none => tryPat hay lf2 2 e := by
  unfold acFindAt
  cases tryPat hay p0 0 e <;> cases tryPat hay crlf2 1 e <;> rfl

theorem acFindAt_sound {hay p0 : List Nat} {e : Nat} {m : AcMatch}
    (h : acFindAt hay p0 e = some m) :
    m.stop = e ∧
      ((m.pattern = 0 ∧ p0.length ≤ e ∧ m.start = e - p0.length ∧
          acMatchAt hay p0 m.start = true) ∨
        (m.pattern = 1 ∧ 4 ≤ e ∧ m.start = e - 4 ∧ acMatchAt hay crlf2 m.start = true) ∨
        (m.pattern = 2 ∧ 2 ≤ e ∧ m.start = e - 2 ∧ acMatchAt hay lf2 m.start = true)) := by
  rw [acFindAt_eq] at h
  cases h0 : tryPat hay p0 0 e with
  | some m2 =>
    rw [h0] at h
    obtain ⟨hm2, hle, hmt⟩ := tryPat_some h0
    have hm : m = m2 := (Option.some.inj h).symm
    subst hm
    subst hm2
    exact ⟨rfl, Or.inl ⟨rfl, hle, rfl, hmt⟩⟩
  | none =>
    rw [h0] at h
    cases h1 : tryPat hay crlf2 1 e with
    | some m2 =>
      rw [h1] at h
      obtain ⟨hm2, hle, hmt⟩ := tryPat_some h1
      have hm : m = m2 := (Option.some.inj h).symm
      subst hm
      subst hm2
      exact ⟨rfl, Or.inr (Or.inl ⟨rfl, hle, rfl, hmt⟩)⟩
    | none =>
      rw [h1] at h
      obtain ⟨hm2, hle, hmt⟩ := tryPat_some h
      subst hm2
      exact ⟨rfl, Or.inr (Or.inr ⟨rfl, hle, rfl, hmt⟩)⟩

theorem acFindAt_none {hay p0 : List Nat} {e : Nat} (h : acFindAt hay p0 e = none) :
    ¬(p0.length ≤ e ∧ acMatchAt hay p0 (e - p0.length) = true) ∧
      ¬(4 ≤ e ∧ acMatchAt hay crlf2 (e - 4) = true) ∧
      ¬(2 ≤ e ∧ acMatchAt hay lf2 (e - 2) = true) := by
  rw [acFindAt_eq] at h
  cases h0 : tryPat hay p0 0 e with
  | some m2 => rw [h0] at h; exact absurd h (by simp)
  | none =>
    rw [h0] at h
    cases h1 : tryPat hay crlf2 1 e with
    | some m2 => rw [h1] at h; exact absurd h (by simp)
    | none =>
      rw [h1] at h
      exact ⟨tryPat_none h0, tryPat_none h1, tryPat_none h⟩

theorem acFindAt_needle_first {hay p0 : List Nat} {e : Nat} (h1 : p0.length ≤ e)
    (h2 : acMatchAt hay p0 (e - p0.length) = true) :
    acFindAt hay p0 e = some ⟨e - p0.length, e, 0⟩ := by
  rw [acFindAt_eq, tryPat_of_match h1 h2]

theorem scanFirst_some_spec {f : Nat → Option AcMatch} :
    ∀ {n e : Nat} {m : AcMatch}, scanFirst f n e = some m →
      ∃ e2, e ≤ e2 ∧ e2 < e + n ∧ f e2 = some m ∧
        ∀ j, e ≤ j → j < e2 → f j = none := by
  intro n
  induction n with
  | zero => intro e m h; simp [scanFirst] at h
  | succ k ih =>
    intro e m h
    rw [show scanFirst f (k + 1) e =
        (match f e with | some m => some m | none => scanFirst f k (e + 1)) from rfl] at h
    cases hfe : f e with
    | some m2 =>
      rw [hfe] at h
      refine ⟨e, le_refl e, by omega, ?_, fun j hj1 hj2 => absurd hj1 (by omega)⟩
      rw [hfe]
      exact h
    | none =>
      rw [hfe] at h
      obtain ⟨e2, h1, h2, h3, h4⟩ := ih h
      refine ⟨e2, by omega, by omega, h3, fun j hj1 hj2 => ?_⟩
      rcases Nat.eq_or_lt_of_le hj1 with rfl | hlt
      · exact hfe
      · exact h4 j hlt hj2

theorem scanFirst_eq_some {f : Nat → Option AcMatch} :
    ∀ {n e e2 : Nat} {m : AcMatch}, e ≤ e2 → e2 < e + n → f e2 = some m →
      (∀ j, e ≤ j → j < e2 → f j = none) → scanFirst f n e = some m := by
  intro n
  induction n with
  | zero => intro e e2 m h1 h2 h3 h4; omega
  | succ k ih =>
    intro e e2 m h1 h2 h3 h4
    rw [show scanFirst f (k + 1) e =
        (match f e with | some m => some m | none => scanFirst f k (e + 1)) from rfl]
    rcases Nat.eq_or_lt_of_le h1 with rfl | hlt
    · rw [h3]
    · have he : f e = none := h4 e (le_refl e) hlt
      rw [he]
      exact ih hlt (by omega) h3 fun j hj1 hj2 => h4 j (by omega) hj2

theorem acFind_min {hay p0 : List Nat} {m : AcMatch} (h : acFind hay p0 = some m) :
    acFindAt hay p0 m.stop = some m ∧ m.stop ≤ hay.length ∧
      ∀ e, e < m.stop → acFindAt hay p0 e = none := by
  obtain ⟨e2, h1, h2, h3, h4⟩ := scanFirst_some_spec h
  have hstop : m.stop = e2 := (acFindAt_sound h3).1
  rw [hstop]
  exact ⟨h3, by omega, fun e he => h4 e (Nat.zero_le e) (by omega)⟩

theorem acFind_eq_some {hay p0 : List Nat} {e2 : Nat} {m : AcMatch}
    (hle : e2 ≤ hay.length) (h1 : acFindAt hay p0 e2 = some m)
    (h2 : ∀ j, j < e2 → acFindAt hay p0 j = none) : acFind hay p0 = some m :=
  scanFirst_eq_some (Nat.zero_le e2) (by omega) h1 fun j _ hj2 => h2 j hj2

/-! The splice performed by `set_header` in take/drop form. -/

theorem rangeMap_getElem? (n : Nat) (f : Nat → Nat) (i : Nat) :
    ((List.range n).map f)[i]? = if i < n then some (f i) else none := by
  by_cases h : i < n
  · rw [if_pos h, List.getElem?_map, List.getElem?_range h, Option.map_some']
  · rw [if_neg h, List.getElem?_eq_none]
    rw [List.length_map, List.length_range]
    omega

theorem length_copy_within (l : List Nat) (a b d : Nat) :
    (copy_within l a b d).length = l.length := by
  rw [copy_within, List.length_map, List.length_range]

theorem length_write_range (l s : List Nat) (st : Nat) :
    (write_range l st s).length = l.length := by
  rw [write_range, List.length_map, List.length_range]

theorem copy_within_getElem? (l : List Nat) (a b d i : Nat) :
    (copy_within l a b d)[i]? =
      if i < l.length then
        some (if d ≤ i ∧ i < d + (b - a) then l.getD (a + (i - d)) 0 else l.getD i 0)
      else none := by
  rw [copy_within, rangeMap_getElem?]

theorem write_range_getElem? (l s : List Nat) (st i : Nat) :
    (write_range l st s)[i]? =
      if i < l.length then
        some (if st ≤ i ∧ i < st + s.length then s.getD (i - st) 0 else l.getD i 0)
      else none := by
  rw [write_range, rangeMap_getElem?]

theorem append3_getElem? (X Y Z : List Nat) (i : Nat) :
    (X ++ Y ++ Z)[i]? =
      if i < X.length then X[i]?
      else if i < X.length + Y.length then Y[i - X.length]?
      else Z[i - X.length - Y.length]? := by
  by_cases h1 : i < X.length
  · rw [if_pos h1, List.getElem?_append_left (by rw [List.length_append]; omega),
      List.getElem?_append_left h1]
  · rw [if_neg h1]
    by_cases h2 : i < X.length + Y.length
    · rw [if_pos h2, List.getElem?_append_left (by rw [List.length_append]; omega),
        List.getElem?_append_right (by omega)]
    · rw [if_neg h2, List.getElem?_append_right (by rw [List.length_append]; omega)]
      rw [List.length_append]
      congr 1
      omega

theorem getD_some {l : List Nat} {j : Nat} (h : j < l.length) :
    some (l.getD j 0) = l[j]? := by
  rw [List.getD_eq_getElem _ _ h, List.getElem?_eq_getElem h]

theorem copy_within_eq {l : List Nat} {a b d : Nat} (hab : a ≤ b) (hbl : b ≤ l.length)
    (hd : d + (b - a) ≤ l.length) :
    copy_within l a b d = l.take d ++ (l.drop a).take (b - a) ++ l.drop (d + (b - a)) := by
  apply List.ext_getElem?
  intro i
  rw [copy_within_getElem?, append3_getElem?]
  have hX : (l.take d).length = d := by
    rw [List.length_take]
    exact Nat.min_eq_left (by omega)
  have hY : ((l.drop a).take (b - a)).length = b - a := by
    rw [List.length_take, List.length_drop]
    exact Nat.min_eq_left (by omega)
  rw [hX, hY]
  by_cases h1 : i < d
  · rw [if_pos (show i < l.length by omega),
      if_neg (show ¬(d ≤ i ∧ i < d + (b - a)) by omega), if_pos h1]
    rw [List.getElem?_take]
    rw [if_pos h1]
    exact getD_some (by omega)
  · by_cases h2 : i < d + (b - a)
    · rw [if_pos (show i < l.length by omega),
        if_pos (show d ≤ i ∧ i < d + (b - a) by omega), if_neg h1, if_pos h2]
      rw [List.getElem?_take]
      rw [if_pos (show i - d < b - a by omega), List.getElem?_drop]
      exact getD_some (by omega)
    · by_cases h3 : i < l.length
      · rw [if_pos h3, if_neg (show ¬(d ≤ i ∧ i < d + (b - a)) by omega), if_neg h1,
          if_neg h2, List.getElem?_drop]
        have hidx : d + (b - a) + (i - d - (b - a)) = i := by omega
        rw [hidx]
        exact getD_some h3
      · rw [if_neg h3, if_neg h1, if_neg h2, List.getElem?_drop]
        exact (List.getElem?_eq_none (by omega)).symm

theorem write_range_eq {l s : List Nat} {st : Nat} (h : st + s.length ≤ l.length) :
    write_range l st s = l.take st ++ s ++ l.drop (st + s.length) := by
  apply List.ext_getElem?
  intro i
  rw [write_range_getElem?, append3_getElem?]
  have hX : (l.take st).length = st := by
    rw [List.length_take]
    exact Nat.min_eq_left (by omega)
  rw [hX]
  by_cases h1 : i < st
  · rw [if_pos (show i < l.length by omega),
      if_neg (show ¬(st ≤ i ∧ i < st + s.length) by omega), if_pos h1]
    rw [List.getElem?_take]
    rw [if_pos h1]
    exact getD_some (by omega)
  · by_cases h2 : i < st + s.length
    · rw [if_pos (show i < l.length by omega),
        if_pos (show st ≤ i ∧ i < st + s.length by omega), if_neg h1, if_pos h2]
      exact getD_some (by omega)
    · by_cases h3 : i < l.length
      · rw [if_pos h3, if_neg (show ¬(st ≤ i ∧ i < st + s.length) by omega), if_neg h1,
          if_neg h2, List.getElem?_drop]
        have hidx : st + s.length + (i - st - s.length) = i := by omega
        rw [hidx]
        exact getD_some h3
      · rw [if_neg h3, if_neg h1, if_neg h2, List.getElem?_drop]
        exact (List.getElem?_eq_none (by omega)).symm

theorem vec_resize_eq {l : List Nat} {n : Nat} (h : l.length <= n) :
    vec_resize l n = l ++ List.replicate (n - l.length) 0 := by
  rw [vec_resize, List.take_of_length_le h]

theorem splice_shrink {l s : List Nat} {sv cl : Nat} (hsv : sv + cl <= l.length)
    (hs : s.length < cl) :
    write_range
      (vec_truncate (copy_within l (sv + cl) l.length (sv + s.length))
        (l.length + s.length - cl))
      sv s = l.take sv ++ s ++ l.drop (sv + cl) := by
  have h1 : copy_within l (sv + cl) l.length (sv + s.length) =
      l.take (sv + s.length) ++ (l.drop (sv + cl)).take (l.length - (sv + cl)) ++
        l.drop (sv + s.length + (l.length - (sv + cl))) :=
    copy_within_eq (by omega) (le_refl _) (by omega)
  have h2 : (l.drop (sv + cl)).take (l.length - (sv + cl)) = l.drop (sv + cl) :=
    List.take_of_length_le (by rw [List.length_drop])
  have hlen12 : (l.take (sv + s.length) ++ l.drop (sv + cl)).length =
      l.length + s.length - cl := by
    rw [List.length_append, List.length_take, List.length_drop,
      Nat.min_eq_left (by omega)]
    omega
  have h3 : vec_truncate
      (l.take (sv + s.length) ++ l.drop (sv + cl) ++
        l.drop (sv + s.length + (l.length - (sv + cl))))
      (l.length + s.length - cl) = l.take (sv + s.length) ++ l.drop (sv + cl) := by
    rw [vec_truncate]
    exact List.take_left' hlen12
  have h4 : write_range (l.take (sv + s.length) ++ l.drop (sv + cl)) sv s =
      (l.take (sv + s.length) ++ l.drop (sv + cl)).take sv ++ s ++
        (l.take (sv + s.length) ++ l.drop (sv + cl)).drop (sv + s.length) := by
    apply write_range_eq
    rw [hlen12]
    omega
  have h5 : (l.take (sv + s.length) ++ l.drop (sv + cl)).take sv = l.take sv := by
    rw [List.take_append_of_le_length (by rw [List.length_take]; exact le_min (by omega) (by omega))]
    rw [List.take_take, Nat.min_eq_left (by omega)]
  have h6 : (l.take (sv + s.length) ++ l.drop (sv + cl)).drop (sv + s.length) =
      l.drop (sv + cl) :=
    List.drop_left' (by rw [List.length_take]; exact Nat.min_eq_left (by omega))
  rw [h1, h2, h3, h4, h5, h6]

theorem splice_grow_core {l rep s : List Nat} {sv cl : Nat} (hsv : sv + cl <= l.length)
    (hs : cl <= s.length) (hrep : rep.length = s.length - cl) :
    write_range (copy_within (l ++ rep) (sv + cl) l.length (sv + s.length)) sv s =
      l.take sv ++ s ++ l.drop (sv + cl) := by
  have hrl : (l ++ rep).length = l.length + s.length - cl := by
    rw [List.length_append, hrep]
    omega
  have h1 : copy_within (l ++ rep) (sv + cl) l.length (sv + s.length) =
      (l ++ rep).take (sv + s.length) ++
        ((l ++ rep).drop (sv + cl)).take (l.length - (sv + cl)) ++
        (l ++ rep).drop (sv + s.length + (l.length - (sv + cl))) :=
    copy_within_eq (by omega) (by omega) (by omega)
  have h2 : (l ++ rep).drop (sv + cl) = l.drop (sv + cl) ++ rep :=
    List.drop_append_of_le_length (by omega)
  have h3 : (l.drop (sv + cl) ++ rep).take (l.length - (sv + cl)) = l.drop (sv + cl) := by
    rw [List.take_append_of_le_length (by rw [List.length_drop])]
    exact List.take_of_length_le (by rw [List.length_drop])
  have h4 : (l ++ rep).drop (sv + s.length + (l.length - (sv + cl))) = [] :=
    List.drop_of_length_le (by omega)
  have hXlen : ((l ++ rep).take (sv + s.length)).length = sv + s.length := by
    rw [List.length_take]
    exact Nat.min_eq_left (by omega)
  have h5 : write_range ((l ++ rep).take (sv + s.length) ++ l.drop (sv + cl)) sv s =
      ((l ++ rep).take (sv + s.length) ++ l.drop (sv + cl)).take sv ++ s ++
        ((l ++ rep).take (sv + s.length) ++ l.drop (sv + cl)).drop (sv + s.length) := by
    apply write_range_eq
    rw [List.length_append, hXlen]
    omega
  have h6 : ((l ++ rep).take (sv + s.length) ++ l.drop (sv + cl)).take sv = l.take sv := by
    rw [List.take_append_of_le_length (by rw [hXlen]; omega)]
    rw [List.take_take, Nat.min_eq_left (by omega)]
    exact List.take_append_of_le_length (by omega)
  have h7 : ((l ++ rep).take (sv + s.length) ++ l.drop (sv + cl)).drop (sv + s.length) =
      l.drop (sv + cl) :=
    List.drop_left' hXlen
  rw [h1, h2, h3, h4, List.append_nil, h5, h6, h7]

theorem splice_grow {l s : List Nat} {sv cl : Nat} (hsv : sv + cl <= l.length)
    (hs : cl <= s.length) :
    write_range
      (copy_within (vec_resize l (l.length + s.length - cl)) (sv + cl) l.length
        (sv + s.length))
      sv s = l.take sv ++ s ++ l.drop (sv + cl) := by
  rw [vec_resize_eq (by omega)]
  exact splice_grow_core hsv hs (by rw [List.length_replicate]; omega)

theorem splice_eq {l s : List Nat} {sv cl : Nat} (hsv : sv + cl <= l.length) :
    write_range
      (if s.length < cl then
        vec_truncate
          (copy_within l (sv + cl) l.length (sv + cl + s.length - cl))
          (l.length + s.length - cl)
      else
        copy_within (vec_resize l (l.length + s.length - cl)) (sv + cl) l.length
          (sv + cl + s.length - cl))
      sv s = l.take sv ++ s ++ l.drop (sv + cl) := by
  have harr : sv + cl + s.length - cl = sv + s.length := by omega
  rw [harr]
  split_ifs with hc
  · exact splice_shrink hsv hc
  · exact splice_grow hsv (by omega)

theorem needle_tail {hay H : List Nat} {i : Nat} (h : MatchesAt hay (10 :: H) i) :
    MatchesAt hay H (i + 1) := by
  obtain ⟨hle, heq⟩ := h
  have hlen10 : (10 :: H).length = H.length + 1 := by simp
  have hil : i < hay.length := by omega
  constructor
  · omega
  · have hdrop : hay.drop i = hay[i] :: hay.drop (i + 1) := List.drop_eq_getElem_cons hil
    rw [hlen10, hdrop, List.take_succ_cons] at heq
    simp only [lowerL, List.map_cons] at heq
    simp only [lowerL]
    exact (List.cons.inj heq).2

/-! Behaviour of the locator `get_header_idx`. -/

theorem acMatchAt_needle_le {contents H : List Nat} {i : Nat}
    (h : acMatchAt contents (10 :: H) i = true) : i + 1 + H.length ≤ contents.length := by
  have hM := (acMatchAt_iff (by simp)).mp h
  have hle := hM.1
  have hlen10 : (10 :: H).length = H.length + 1 := by simp
  omega

theorem get_header_idx_none_of_no_needle {contents H : List Nat}
    (hno : ∀ i, i ≤ contents.length → acMatchAt contents (10 :: H) i = false) :
    get_header_idx contents (10 :: H) = none := by
  unfold get_header_idx
  cases hf : acFind contents (10 :: H) with
  | none => rfl
  | some m =>
    show (if m.pattern ≠ 0 then none else some (m.start + 2)) = none
    obtain ⟨hat, hlen, hmin⟩ := acFind_min hf
    obtain ⟨hstop, hcases⟩ := acFindAt_sound hat
    rcases hcases with ⟨hp, hle, hst, hmt⟩ | ⟨hp, _, _, _⟩ | ⟨hp, _, _, _⟩
    · exfalso
      have hb : m.start ≤ contents.length := by
        have := acMatchAt_needle_le hmt
        omega
      rw [hno m.start hb] at hmt
      exact Bool.false_ne_true hmt
    · rw [if_pos (show m.pattern ≠ 0 by omega)]
    · rw [if_pos (show m.pattern ≠ 0 by omega)]

theorem get_header_idx_none_of_marker_first {contents H : List Nat} {j : Nat}
    (hH : H ≠ []) (h10 : 10 ∉ H) (h13 : 13 ∉ H)
    (hm : acMatchAt contents crlf2 j = true ∨ acMatchAt contents lf2 j = true)
    (hfirst : ∀ i, acMatchAt contents (10 :: H) i = true → j < i) :
    get_header_idx contents (10 :: H) = none := by
  unfold get_header_idx
  cases hf : acFind contents (10 :: H) with
  | none => rfl
  | some m =>
    show (if m.pattern ≠ 0 then none else some (m.start + 2)) = none
    by_cases hp : m.pattern ≠ 0
    · rw [if_pos hp]
    · exfalso
      push_neg at hp
      obtain ⟨hat, hlen, hmin⟩ := acFind_min hf
      obtain ⟨hstop, hcases⟩ := acFindAt_sound hat
      have hlen10 : (10 :: H).length = H.length + 1 := by simp
      rcases hcases with ⟨_, hle, hst, hmt⟩ | ⟨h1, _, _, _⟩ | ⟨h1, _, _, _⟩
      · have hji : j < m.start := hfirst m.start hmt
        have hMn : MatchesAt contents (10 :: H) m.start := (acMatchAt_iff (by simp)).mp hmt
        have hstop2 : m.stop = m.start + 1 + H.length := by omega
        rcases hm with hcr | hlf
        · have hMm : MatchesAt contents crlf2 j := (acMatchAt_iff (by decide)).mp hcr
          have hmle : m.stop ≤ j + 4 := by
            by_contra hgt
            push_neg at hgt
            have hnone := hmin (j + 4) hgt
            exact (acFindAt_none hnone).2.1 ⟨by omega, by simpa using hcr⟩
          have := crlf2_before hH h10 h13 hMn hMm hji
          omega
        · have hMm : MatchesAt contents lf2 j := (acMatchAt_iff (by decide)).mp hlf
          have hmle : m.stop ≤ j + 2 := by
            by_contra hgt
            push_neg at hgt
            have hnone := hmin (j + 2) hgt
            exact (acFindAt_none hnone).2.2 ⟨by omega, by simpa using hlf⟩
          have := lf2_before hH hji
          omega
      · omega
      · omega

theorem get_header_idx_some_of_needle_first {contents H : List Nat} {i : Nat}
    (hH : H ≠ []) (h10 : 10 ∉ H) (h13 : 13 ∉ H)
    (hi : acMatchAt contents (10 :: H) i = true)
    (hmin : ∀ i2, acMatchAt contents (10 :: H) i2 = true → i ≤ i2)
    (hmark : ∀ j, acMatchAt contents crlf2 j = true ∨ acMatchAt contents lf2 j = true →
      i < j) :
    get_header_idx contents (10 :: H) = some (i + 2) := by
  have hMn : MatchesAt contents (10 :: H) i := (acMatchAt_iff (by simp)).mp hi
  have hlen10 : (10 :: H).length = H.length + 1 := by simp
  have hcont : i + 1 + H.length ≤ contents.length := acMatchAt_needle_le hi
  have hfind : acFind contents (10 :: H) = some ⟨i, i + 1 + H.length, 0⟩ := by
    apply acFind_eq_some hcont
    · have harr : (i + 1 + H.length) - (10 :: H).length = i := by omega
      have h2 : acMatchAt contents (10 :: H) ((i + 1 + H.length) - (10 :: H).length) =
          true := by
        rw [harr]
        exact hi
      have h3 := acFindAt_needle_first (show (10 :: H).length ≤ i + 1 + H.length by omega) h2
      rw [harr] at h3
      exact h3
    · intro e2 he2
      cases hA : acFindAt contents (10 :: H) e2 with
      | none => rfl
      | some m2 =>
        exfalso
        obtain ⟨hstop2, hcases2⟩ := acFindAt_sound hA
        rcases hcases2 with ⟨_, hle2, hst2, hmt2⟩ | ⟨_, hle2, hst2, hmt2⟩ |
          ⟨_, hle2, hst2, hmt2⟩
        · have := hmin m2.start hmt2
          omega
        · have hj := hmark m2.start (Or.inl hmt2)
          have hMm : MatchesAt contents crlf2 m2.start := (acMatchAt_iff (by decide)).mp hmt2
          have := crlf2_after h10 h13 hMn hMm hj
          omega
        · have hj := hmark m2.start (Or.inr hmt2)
          have hMm : MatchesAt contents lf2 m2.start := (acMatchAt_iff (by decide)).mp hmt2
          have := lf2_after h10 h13 hMn hMm hj
          omega
  unfold get_header_idx
  rw [hfind]
  simp

/-! Stability of the search under agreement on a prefix. -/

theorem acMatchAt_agree {b1 b2 p : List Nat} {n i : Nat} (hpre : b1.take n = b2.take n)
    (h : i + p.length ≤ n) : acMatchAt b1 p i = acMatchAt b2 p i := by
  unfold acMatchAt
  have key : ∀ b : List Nat, ((b.take n).drop i).take p.length = (b.drop i).take p.length := by
    intro b
    rw [List.drop_take, List.take_take, Nat.min_eq_left (by omega)]
  rw [← key b1, ← key b2, hpre]

theorem tryPat_agree {b1 b2 pat : List Nat} {k e n : Nat} (hpre : b1.take n = b2.take n)
    (he : e ≤ n) : tryPat b1 pat k e = tryPat b2 pat k e := by
  by_cases hle : pat.length ≤ e
  · unfold tryPat
    rw [acMatchAt_agree hpre (show (e - pat.length) + pat.length ≤ n by omega)]
  · unfold tryPat
    rw [if_neg (fun hc => hle hc.1), if_neg (fun hc => hle hc.1)]

theorem acFindAt_agree {b1 b2 p0 : List Nat} {e n : Nat} (hpre : b1.take n = b2.take n)
    (he : e ≤ n) : acFindAt b1 p0 e = acFindAt b2 p0 e := by
  unfold acFindAt
  rw [tryPat_agree hpre he, tryPat_agree hpre he, tryPat_agree hpre he]

theorem acFind_stable {b1 b2 p0 : List Nat} {m : AcMatch} {n : Nat}
    (hpre : b1.take n = b2.take n) (hn2 : n ≤ b2.length)
    (hf : acFind b1 p0 = some m) (hstop : m.stop ≤ n) : acFind b2 p0 = some m := by
  obtain ⟨hat, hlen, hmin⟩ := acFind_min hf
  apply acFind_eq_some (show m.stop ≤ b2.length by omega)
  · rw [← acFindAt_agree hpre hstop]
    exact hat
  · intro j hj
    rw [← acFindAt_agree hpre (by omega)]
    exact hmin j hj

/-! Soundness of the substring search. -/

theorem memfindFrom_sound {hay needle : List Nat} :
    ∀ {fuel i off : Nat}, memfindFrom hay needle fuel i = some off →
      (hay.drop off).take needle.length = needle := by
  intro fuel
  induction fuel with
  | zero => intro i off h; simp [memfindFrom] at h
  | succ k ih =>
    intro i off h
    rw [show memfindFrom hay needle (k + 1) i =
        (if (hay.drop i).take needle.length = needle then some i
          else memfindFrom hay needle k (i + 1)) from rfl] at h
    split_ifs at h with hc
    · cases h
      exact hc
    · exact ih h

theorem memfind_sound {hay needle : List Nat} {off : Nat}
    (h : memfind hay needle = some off) :
    (hay.drop off).take needle.length = needle :=
  memfindFrom_sound h

theorem memfind_window {hay needle : List Nat} {off : Nat} (hne : needle ≠ [])
    (h : memfind hay needle = some off) : off + needle.length ≤ hay.length := by
  have hw := memfind_sound h
  have hlen := congrArg List.length hw
  rw [List.length_take, List.length_drop] at hlen
  have hpos : 0 < needle.length := List.length_pos.mpr hne
  omega

/-! The structured-parse lemma for a well-formed single-line header. -/

theorem findIdx?_go_append {p : Nat → Bool} {T : List Nat} {a : Nat} {r : List Nat} :
    ∀ {i : Nat}, (∀ x ∈ T, p x = false) → p a = true →
      List.findIdx? p (T ++ a :: r) i = some (i + T.length) := by
  induction T with
  | nil =>
    intro i _ hpa
    rw [List.nil_append,
      show List.findIdx? p (a :: r) i = (if p a then some i else List.findIdx? p r (i + 1))
        from rfl, hpa]
    simp
  | cons t ts ih =>
    intro i hT hpa
    have hpt : p t = false := hT t (by simp)
    rw [List.cons_append,
      show List.findIdx? p (t :: (ts ++ a :: r)) i =
        (if p t then some i else List.findIdx? p (ts ++ a :: r) (i + 1)) from rfl,
      hpt]
    simp only [Bool.false_eq_true, if_false]
    rw [ih (fun x hx => hT x (by simp [hx])) hpa]
    congr 1
    rw [List.length_cons]
    omega

theorem takeWhile_all_append {p : Nat → Bool} {v w : List Nat}
    (hv : ∀ x ∈ v, p x = true) : (v ++ w).takeWhile p = v ++ w.takeWhile p := by
  induction v with
  | nil => simp
  | cons a t ih =>
    rw [List.cons_append, List.takeWhile_cons, if_pos (hv a (by simp)),
      ih (fun x hx => hv x (by simp [hx])), List.cons_append]

theorem parse_header_structured {T v rest : List Nat} (hT58 : 58 ∉ T) (hT10 : 10 ∉ T)
    (hv10 : 10 ∉ v) (hsp : v.head? ≠ some 32) (htab : v.head? ≠ some 9) :
    parse_header (T ++ 58 :: 32 :: (v ++ 13 :: 10 :: rest)) = some ⟨T, v⟩ := by
  have hfind : List.findIdx? (fun c => c == 58 || c == 10)
      (T ++ 58 :: 32 :: (v ++ 13 :: 10 :: rest)) = some (0 + T.length) := by
    apply findIdx?_go_append
    · intro x hx
      simp only [Bool.or_eq_false_iff, beq_eq_false_iff_ne]
      exact ⟨fun h => hT58 (h ▸ hx), fun h => hT10 (h ▸ hx)⟩
    · simp
  rw [Nat.zero_add] at hfind
  unfold parse_header
  simp only [hfind]
  have hgd : (T ++ 58 :: 32 :: (v ++ 13 :: 10 :: rest)).getD T.length 0 = 58 := by
    rw [List.getD_eq_getElem?_getD, List.getElem?_append_right (le_refl _)]
    simp
  rw [hgd]
  simp only [show ((58 : Nat) == 10) = false from rfl, Bool.false_eq_true, if_false]
  have hdrop : (T ++ 58 :: 32 :: (v ++ 13 :: 10 :: rest)).drop (T.length + 1) =
      32 :: (v ++ 13 :: 10 :: rest) := by
    have hda : (T ++ 58 :: 32 :: (v ++ 13 :: 10 :: rest)).drop (T.length + 1) =
        (58 :: 32 :: (v ++ 13 :: 10 :: rest)).drop 1 := List.drop_append 1
    rw [hda]
    rfl
  rw [hdrop]
  have hdw : (32 :: (v ++ 13 :: 10 :: rest)).dropWhile (fun c => c == 32 || c == 9) =
      v ++ 13 :: 10 :: rest := by
    rw [List.dropWhile_cons, if_pos (by decide)]
    cases v with
    | nil =>
      rw [List.nil_append, List.dropWhile_cons, if_neg (by decide)]
    | cons a t =>
      have ha32 : a ≠ 32 := fun h => hsp (by rw [← h]; rfl)
      have ha9 : a ≠ 9 := fun h => htab (by rw [← h]; rfl)
      rw [List.cons_append, List.dropWhile_cons, if_neg (by
        simp only [Bool.or_eq_true, beq_iff_eq]
        rintro (rfl | rfl)
        · exact ha32 rfl
        · exact ha9 rfl)]
  rw [hdw]
  have htw : (v ++ 13 :: 10 :: rest).takeWhile (fun c => c != 10) = v ++ [13] := by
    rw [takeWhile_all_append (fun x hx => by
      simp only [bne_iff_ne, ne_eq]
      exact fun h => hv10 (h ▸ hx))]
    rw [List.takeWhile_cons, if_pos (by decide), List.takeWhile_cons, if_neg (by decide)]
  rw [htw]
  have hlast : ((v ++ [13]).getLast? == some 13) = true := by
    rw [List.getLast?_concat]
    rfl
  rw [if_pos hlast]
  rw [List.dropLast_concat]
  rw [List.take_left]

/-! The filter pipeline: short-circuiting. -/

theorem runSteps_append_continue {M : Type} {fs1 : List (FilterFn M)} :
    ∀ {fs2 : List (FilterFn M)} {mail m1 : M},
      runSteps fs1 mail = .finished none m1 →
      runSteps (fs1 ++ fs2) mail = runSteps fs2 m1 := by
  induction fs1 with
  | nil =>
    intro fs2 mail m1 h
    rw [show runSteps ([] : List (FilterFn M)) mail = .finished none mail from rfl] at h
    cases h
    rfl
  | cons f fs ih =>
    intro fs2 mail m1 h
    rw [show runSteps (f :: fs) mail =
      (match f mail with
        | (.Continue, m') => runSteps fs m'
        | (.Ignore, m') => .ignored m'
        | (.Reject err, m') => .finished (some err) m') from rfl] at h
    rw [List.cons_append]
    rw [show runSteps (f :: (fs ++ fs2)) mail =
      (match f mail with
        | (.Continue, m') => runSteps (fs ++ fs2) m'
        | (.Ignore, m') => .ignored m'
        | (.Reject err, m') => .finished (some err) m') from rfl]
    cases hf : f mail with
    | mk a m' =>
      rw [hf] at h
      cases a with
      | Continue => exact ih h
      | Ignore => exact absurd h (by simp)
      | Reject err => exact absurd h (by simp)

/-- C4: if a step of the pipeline returns `Reject err`, `process` runs no
further steps (the result does not depend on the remaining steps) and the call
fails with `err` rendered as `"<status> <message>"`. -/
theorem claim_C4_reject_short_circuits {M : Type}
    (into_parts : M → List Nat × MailAddrList × MailAddrList)
    (fs1 fs2 : List (FilterFn M)) (f : FilterFn M) (mail m1 m2 : M) (err : Error)
    (h1 : runSteps fs1 mail = .finished none m1)
    (h2 : f m1 = (.Reject err, m2)) :
    Filter.process ⟨fs1 ++ f :: fs2⟩ into_parts mail = .error err.render := by
  unfold Filter.process
  rw [show (Filter.mk (fs1 ++ f :: fs2)).filters = fs1 ++ f :: fs2 from rfl]
  rw [runSteps_append_continue h1]
  rw [show runSteps (f :: fs2) m1 =
    (match f m1 with
      | (.Continue, m') => runSteps fs2 m'
      | (.Ignore, m') => .ignored m'
      | (.Reject err, m') => .finished (some err) m') from rfl]
  rw [h2]

/-- C5: if a step of the pipeline returns `Ignore`, `process` stops
immediately — no later step is evaluated, no error is produced — and succeeds
with the mail's decomposed state as of that step. -/
theorem claim_C5_ignore_stops {M : Type}
    (into_parts : M → List Nat × MailAddrList × MailAddrList)
    (fs1 fs2 : List (FilterFn M)) (f : FilterFn M) (mail m1 m2 : M)
    (h1 : runSteps fs1 mail = .finished none m1)
    (h2 : f m1 = (.Ignore, m2)) :
    Filter.process ⟨fs1 ++ f :: fs2⟩ into_parts mail = .ok (into_parts m2) := by
  unfold Filter.process
  rw [show (Filter.mk (fs1 ++ f :: fs2)).filters = fs1 ++ f :: fs2 from rfl]
  rw [runSteps_append_continue h1]
  rw [show runSteps (f :: fs2) m1 =
    (match f m1 with
      | (.Continue, m') => runSteps fs2 m'
      | (.Ignore, m') => .ignored m'
      | (.Reject err, m') => .finished (some err) m') from rfl]
  rw [h2]

theorem claim_C4_witness :
    Filter.process ⟨[contStep, rejectStep550]⟩ UnparsedMail.into_parts demoMail =
      .error "550 no" := by
  have h := claim_C4_reject_short_circuits UnparsedMail.into_parts [contStep] []
    rejectStep550 demoMail demoMail demoMail ⟨550, "no"⟩ rfl rfl
  rw [show ([contStep] ++ rejectStep550 :: ([] : List (FilterFn UnparsedMail))) =
    [contStep, rejectStep550] from rfl] at h
  rw [h]
  rfl

theorem claim_C5_witness :
    Filter.process ⟨[contStep, ignoreStep, rejectStep550]⟩ UnparsedMail.into_parts demoMail =
      .ok (UnparsedMail.into_parts demoMail) := by
  have h := claim_C5_ignore_stops UnparsedMail.into_parts [contStep] [rejectStep550]
    ignoreStep demoMail demoMail demoMail rfl rfl
  rw [show ([contStep] ++ ignoreStep :: [rejectStep550]) =
    [contStep, ignoreStep, rejectStep550] from rfl] at h
  rw [h]

/-! Memoization and read-accessor frame conditions. -/

/-- C7: each memoized field (header recipients, sender, cc, bcc, subject,
user-agent), once populated by a first read, is returned verbatim by a later
read of the same mail value even after `set_header` has mutated the buffer —
the cache is not invalidated. -/
theorem claim_C7_memoization (m : UnparsedMail) (H s : List Nat) :
    ((((m.get_recipients).2.setHeader H s).get_recipients).1 = (m.get_recipients).1) ∧
    ((((m.get_sender).2.setHeader H s).get_sender).1 = (m.get_sender).1) ∧
    ((((m.get_cc).2.setHeader H s).get_cc).1 = (m.get_cc).1) ∧
    ((((m.get_bcc).2.setHeader H s).get_bcc).1 = (m.get_bcc).1) ∧
    ((((m.get_subject).2.setHeader H s).get_subject).1 = (m.get_subject).1) ∧
    ((((m.get_ua).2.setHeader H s).get_ua).1 = (m.get_ua).1) := by
  refine ⟨?_, ?_, ?_, ?_, ?_, ?_⟩
  · unfold UnparsedMail.get_recipients getHeaderAddr UnparsedMail.setHeader
    cases hm : m.recipients <;> simp [hm]
  · unfold UnparsedMail.get_sender getHeaderAddr UnparsedMail.setHeader
    cases hm : m.sender <;> simp [hm]
  · unfold UnparsedMail.get_cc getHeaderAddr UnparsedMail.setHeader
    cases hm : m.cc <;> simp [hm]
  · unfold UnparsedMail.get_bcc getHeaderAddr UnparsedMail.setHeader
    cases hm : m.bcc <;> simp [hm]
  · unfold UnparsedMail.get_subject UnparsedMail.setHeader
    cases hm : m.subject <;> simp [hm]
  · unfold UnparsedMail.get_ua UnparsedMail.setHeader
    cases hm : m.user_agent <;> simp [hm]

theorem get_recipients_frame (m : UnparsedMail) :
    (m.get_recipients).2.contents = m.contents ∧ (m.get_recipients).2.from_ = m.from_ ∧
      (m.get_recipients).2.to_ = m.to_ := by
  unfold UnparsedMail.get_recipients getHeaderAddr
  cases hm : m.recipients <;> simp [hm]

theorem get_sender_frame (m : UnparsedMail) :
    (m.get_sender).2.contents = m.contents ∧ (m.get_sender).2.from_ = m.from_ ∧
      (m.get_sender).2.to_ = m.to_ := by
  unfold UnparsedMail.get_sender getHeaderAddr
  cases hm : m.sender <;> simp [hm]

theorem get_cc_frame (m : UnparsedMail) :
    (m.get_cc).2.contents = m.contents ∧ (m.get_cc).2.from_ = m.from_ ∧
      (m.get_cc).2.to_ = m.to_ := by
  unfold UnparsedMail.get_cc getHeaderAddr
  cases hm : m.cc <;> simp [hm]

theorem get_bcc_frame (m : UnparsedMail) :
    (m.get_bcc).2.contents = m.contents ∧ (m.get_bcc).2.from_ = m.from_ ∧
      (m.get_bcc).2.to_ = m.to_ := by
  unfold UnparsedMail.get_bcc getHeaderAddr
  cases hm : m.bcc <;> simp [hm]

theorem get_subject_frame (m : UnparsedMail) :
    (m.get_subject).2.contents = m.contents ∧ (m.get_subject).2.from_ = m.from_ ∧
      (m.get_subject).2.to_ = m.to_ := by
  unfold UnparsedMail.get_subject
  cases hm : m.subject <;> simp [hm]

theorem get_ua_frame (m : UnparsedMail) :
    (m.get_ua).2.contents = m.contents ∧ (m.get_ua).2.from_ = m.from_ ∧
      (m.get_ua).2.to_ = m.to_ := by
  unfold UnparsedMail.get_ua
  cases hm : m.user_agent <;> simp [hm]

theorem header_domain_snd (m : UnparsedMail) :
    (m.header_domain).2 = (m.get_recipients).2 := by
  unfold UnparsedMail.header_domain UnparsedMail.header_recipients
  cases hp : m.get_recipients with
  | mk addrs m2 =>
    simp only [hp]
    repeat' split
    all_goals rfl

theorem domain_snd (m : UnparsedMail) : (m.domain).2 = m := by
  unfold UnparsedMail.domain UnparsedMail.recipientsEnv
  repeat' split
  all_goals simp_all

theorem user_agent_snd (m : UnparsedMail) : (m.userAgent).2 = (m.get_ua).2 := by
  unfold UnparsedMail.userAgent
  cases hp : m.get_ua with
  | mk s m2 =>
    simp only [hp]
    by_cases hs : s = [] <;> simp [hs]

/-- C10: every read accessor (`header_recipients`, `header_sender`, `cc`,
`bcc`, `subject`, `user_agent`, `header_domain`, `domain`, `recipients`,
`sender`) leaves the message byte buffer and the envelope sender/recipient
lists unchanged; only cache slots may change. -/
theorem claim_C10_readers_preserve_buffer (m : UnparsedMail) :
    ((m.header_recipients).2.contents = m.contents ∧
      (m.header_recipients).2.from_ = m.from_ ∧ (m.header_recipients).2.to_ = m.to_) ∧
    ((m.header_sender).2.contents = m.contents ∧
      (m.header_sender).2.from_ = m.from_ ∧ (m.header_sender).2.to_ = m.to_) ∧
    ((m.ccAddrs).2.contents = m.contents ∧
      (m.ccAddrs).2.from_ = m.from_ ∧ (m.ccAddrs).2.to_ = m.to_) ∧
    ((m.bccAddrs).2.contents = m.contents ∧
      (m.bccAddrs).2.from_ = m.from_ ∧ (m.bccAddrs).2.to_ = m.to_) ∧
    ((m.subjectStr).2.contents = m.contents ∧
      (m.subjectStr).2.from_ = m.from_ ∧ (m.subjectStr).2.to_ = m.to_) ∧
    ((m.userAgent).2.contents = m.contents ∧
      (m.userAgent).2.from_ = m.from_ ∧ (m.userAgent).2.to_ = m.to_) ∧
    ((m.header_domain).2.contents = m.contents ∧
      (m.header_domain).2.from_ = m.from_ ∧ (m.header_domain).2.to_ = m.to_) ∧
    ((m.domain).2.contents = m.contents ∧
      (m.domain).2.from_ = m.from_ ∧ (m.domain).2.to_ = m.to_) ∧
    ((m.recipientsEnv).2.contents = m.contents ∧
      (m.recipientsEnv).2.from_ = m.from_ ∧ (m.recipientsEnv).2.to_ = m.to_) ∧
    ((m.senderEnv).2.contents = m.contents ∧
      (m.senderEnv).2.from_ = m.from_ ∧ (m.senderEnv).2.to_ = m.to_) := by
  refine ⟨?_, ?_, ?_, ?_, ?_, ?_, ?_, ?_, ?_, ?_⟩
  · exact get_recipients_frame m
  · exact get_sender_frame m
  · exact get_cc_frame m
  · exact get_bcc_frame m
  · exact get_subject_frame m
  · rw [user_agent_snd m]
    exact get_ua_frame m
  · rw [header_domain_snd m]
    exact get_recipients_frame m
  · rw [domain_snd m]
    exact ⟨rfl, rfl, rfl⟩
  · exact ⟨rfl, rfl, rfl⟩
  · exact ⟨rfl, rfl, rfl⟩

/-! Soft failures (C8) and the recipient-rewrite policy (C6). -/

/-- C8: locate and parse failures are never surfaced as errors: each address
accessor returns the empty address list when its header is absent or
unparsable, `subject` returns the empty string, `user_agent` is `Some` exactly
when the cached string is nonempty, and `set_header` on a header that cannot
be located or parsed leaves the buffer unchanged. -/
theorem claim_C8_soft_failures (m : UnparsedMail) (H s : List Nat) :
    (m.recipients = none →
      (get_header_raw m.contents toNeedle).bind addrparse_header = none →
      (m.get_recipients).1 = []) ∧
    (m.sender = none →
      (get_header_raw m.contents fromNeedle).bind addrparse_header = none →
      (m.get_sender).1 = []) ∧
    (m.cc = none →
      (get_header_raw m.contents ccNeedle).bind addrparse_header = none →
      (m.get_cc).1 = []) ∧
    (m.bcc = none →
      (get_header_raw m.contents bccNeedle).bind addrparse_header = none →
      (m.get_bcc).1 = []) ∧
    (m.subject = none → get_header_raw m.contents subjectNeedle = none →
      (m.get_subject).1 = []) ∧
    ((m.userAgent).1 = none ↔ (m.get_ua).1 = []) ∧
    (∀ v, (m.userAgent).1 = some v → v ≠ []) ∧
    (get_header_raw m.contents (10 :: H) = none → set_header m.contents H s = m.contents) := by
  refine ⟨?_, ?_, ?_, ?_, ?_, ?_, ?_, ?_⟩
  · intro h1 h2
    unfold UnparsedMail.get_recipients getHeaderAddr
    simp [h1, h2]
  · intro h1 h2
    unfold UnparsedMail.get_sender getHeaderAddr
    simp [h1, h2]
  · intro h1 h2
    unfold UnparsedMail.get_cc getHeaderAddr
    simp [h1, h2]
  · intro h1 h2
    unfold UnparsedMail.get_bcc getHeaderAddr
    simp [h1, h2]
  · intro h1 h2
    unfold UnparsedMail.get_subject
    simp [h1, h2]
  · unfold UnparsedMail.userAgent
    cases hp : m.get_ua with
    | mk s2 m2 =>
      by_cases hs : s2 = [] <;> simp [hs]
  · intro v hv
    unfold UnparsedMail.userAgent at hv
    cases hp : m.get_ua with
    | mk s2 m2 =>
      simp only [hp] at hv
      by_cases hs : s2 = []
      · rw [if_pos hs] at hv
        exact absurd hv (by simp)
      · rw [if_neg hs] at hv
        have h2 : s2 = v := Option.some.inj hv
        rw [← h2]
        exact hs
  · intro h
    cases hidx : get_header_idx m.contents (10 :: H) with
    | none =>
      simp [set_header, hidx]
    | some idx =>
      unfold get_header_raw at h
      rw [hidx, Option.some_bind] at h
      simp [set_header, hidx, h]

/-- C6: `set_recipient` replaces the envelope recipient list with the new
list regardless of policy, and the `to` header is rewritten through the
header splice with the policy-determined text: the list's textual form under
`Open`, `"name <>"` under `Undisclosed`, no change under `Keep`, and
`"name <sender>"` under `Sender`, where the sender is the first
header-declared sender address, else the first envelope sender address, else
the fixed placeholder. -/
theorem claim_C6_set_recipient (m : UnparsedMail) (L : MailAddrList)
    (d : RecipientDisclosure) :
    ((m.set_recipient L d).to_ = L) ∧
    (d = .Open → (m.set_recipient L d).contents =
      set_header m.contents toName (displayAddrList L)) ∧
    (∀ name, d = .Undisclosed name → (m.set_recipient L d).contents =
      set_header m.contents toName (name ++ [32, 60, 62])) ∧
    (d = .Keep → (m.set_recipient L d).contents = m.contents) ∧
    (∀ name, d = .Sender name → (m.set_recipient L d).contents =
      set_header m.contents toName (name ++ 32 :: 60 :: (senderFallback m ++ [62]))) := by
  cases d with
  | Open =>
    refine ⟨rfl, fun _ => rfl, ?_, ?_, ?_⟩
    · intro name h
      exact absurd h (by simp)
    · intro h
      exact absurd h (by simp)
    · intro name h
      exact absurd h (by simp)
  | Undisclosed name0 =>
    refine ⟨rfl, ?_, ?_, ?_, ?_⟩
    · intro h
      exact absurd h (by simp)
    · intro name h
      injection h with h2
      subst h2
      rfl
    · intro h
      exact absurd h (by simp)
    · intro name h
      exact absurd h (by simp)
  | Keep =>
    refine ⟨rfl, ?_, ?_, fun _ => rfl, ?_⟩
    · intro h
      exact absurd h (by simp)
    · intro name h
      exact absurd h (by simp)
    · intro name h
      exact absurd h (by simp)
  | Sender name0 =>
    refine ⟨rfl, ?_, ?_, ?_, ?_⟩
    · intro h
      exact absurd h (by simp)
    · intro name h
      exact absurd h (by simp)
    · intro h
      exact absurd h (by simp)
    intro name h
    injection h with h2
    subst h2
    show (UnparsedMail.setHeader _ _ _).contents = _
    simp only [UnparsedMail.setHeader, UnparsedMail.senderEnv, UnparsedMail.header_sender]
    rw [(get_sender_frame m).1]
    unfold senderFallback UnparsedMail.header_sender
    cases h0 : (iter_addrs (m.get_sender).1).head? with
    | some si => rfl
    | none =>
      rw [(get_sender_frame m).2.1]

theorem claim_C6_witness :
    (demoMail6.set_recipient demoL (.Sender [89])).to_ = demoL ∧
    (demoMail6.set_recipient demoL (.Sender [89])).contents =
      set_header demoMail6.contents toName ([89] ++ 32 :: 60 :: (senderFallback demoMail6 ++ [62])) := by
  have h := claim_C6_set_recipient demoMail6 demoL (.Sender [89])
  exact ⟨h.1, h.2.2.2.2 [89] rfl⟩

theorem claim_C8_witness :
    (demoMail.get_recipients).1 = [] ∧ (demoMail.get_subject).1 = [] ∧
    (demoMail.userAgent).1 = none ∧
    set_header demoMail.contents toName [122] = demoMail.contents := by
  have h := claim_C8_soft_failures demoMail toName [122]
  exact ⟨h.1 rfl (by decide), h.2.2.2.2.1 rfl (by decide),
    (h.2.2.2.2.2.1).mpr (by decide), h.2.2.2.2.2.2.2 (by decide)⟩

/-! The locator claims (C9 and C3). -/

/-- C9: when a header name's only (case-insensitive) occurrence starts at
byte offset zero — the very first line, with no preceding newline — the
locator returns `None` for that header, so it can be neither read nor mutated
by this mechanism. -/
theorem claim_C9_first_line_unlocatable (contents H : List Nat)
    (honly : ∀ i, i ≤ contents.length → acMatchAt contents H i = true → i = 0) :
    get_header_idx contents (10 :: H) = none := by
  apply get_header_idx_none_of_no_needle
  intro i hi
  by_contra hmt
  rw [Bool.not_eq_false] at hmt
  have hM := (acMatchAt_iff (by simp)).mp hmt
  have hT : MatchesAt contents H (i + 1) := needle_tail hM
  have hb : i + 1 ≤ contents.length := by
    have := hT.1
    omega
  have hzero : i + 1 = 0 := by
    by_cases hHe : H = []
    · subst hHe
      exact honly (i + 1) hb rfl
    · exact honly (i + 1) hb ((acMatchAt_iff hHe).mpr hT)
  omega

theorem claim_C9_witness :
    (∀ i, i ≤ c9buf.length → acMatchAt c9buf c9name i = true → i = 0) ∧
      get_header_idx c9buf (10 :: c9name) = none :=
  ⟨by decide, claim_C9_first_line_unlocatable c9buf c9name (by decide)⟩

/-- C3 counterexample: in the buffer `"x\nto: a\r\n\r\n"` the needle
`"\nto:"` matches at offset 1 and is the first of the three patterns to
occur, yet the locator returns offset 3, not the offset 5 immediately
following the matched newline-plus-header-name sequence — the claim's stated
return value is wrong. -/
theorem claim_C3_counterexample :
    acMatchAt c3buf (10 :: c3name) 1 = true ∧
    (∀ i, i ≤ c3buf.length → acMatchAt c3buf (10 :: c3name) i = true → 1 ≤ i) ∧
    (∀ j, j ≤ c3buf.length →
      (acMatchAt c3buf crlf2 j = true ∨ acMatchAt c3buf lf2 j = true) → 1 < j) ∧
    get_header_idx c3buf (10 :: c3name) = some 3 ∧
    (3 : Nat) ≠ 1 + (10 :: c3name).length := by decide

/-- C3 (amended): for a nonempty header name free of newlines and carriage
returns, the locator returns `None` when the name never occurs or when a
blank-line marker occurs before the name's first occurrence; when the name's
occurrence is the first of the three patterns, it returns the match's start
offset plus two (not the offset following the matched sequence). -/
theorem claim_C3_locator_spec (contents H : List Nat) (hH : H ≠ []) (h10 : 10 ∉ H)
    (h13 : 13 ∉ H) :
    ((∀ i, i ≤ contents.length → acMatchAt contents (10 :: H) i = false) →
      get_header_idx contents (10 :: H) = none) ∧
    (∀ j, (acMatchAt contents crlf2 j = true ∨ acMatchAt contents lf2 j = true) →
      (∀ i, i ≤ contents.length → acMatchAt contents (10 :: H) i = true → j < i) →
      get_header_idx contents (10 :: H) = none) ∧
    (∀ i, acMatchAt contents (10 :: H) i = true →
      (∀ i2, i2 ≤ contents.length → acMatchAt contents (10 :: H) i2 = true → i ≤ i2) →
      (∀ j, j ≤ contents.length →
        (acMatchAt contents crlf2 j = true ∨ acMatchAt contents lf2 j = true) → i < j) →
      get_header_idx contents (10 :: H) = some (i + 2)) := by
  refine ⟨get_header_idx_none_of_no_needle, ?_, ?_⟩
  · intro j hm hfirst
    apply get_header_idx_none_of_marker_first hH h10 h13 hm
    intro i hmt
    exact hfirst i (by have := acMatchAt_needle_le hmt; omega) hmt
  · intro i hi hmin hmark
    apply get_header_idx_some_of_needle_first hH h10 h13 hi
    · intro i2 h2
      exact hmin i2 (by have := acMatchAt_needle_le h2; omega) h2
    · intro j hj
      have hjle : j ≤ contents.length := by
        rcases hj with hcr | hlf
        · have h1 := ((acMatchAt_iff (by decide)).mp hcr).1
          have h2 : crlf2.length = 4 := by decide
          omega
        · have h1 := ((acMatchAt_iff (by decide)).mp hlf).1
          have h2 : lf2.length = 2 := by decide
          omega
      exact hmark j hjle hj

theorem claim_C3_witness : get_header_idx c3wbuf (10 :: c3wname) = some 3 :=
  (claim_C3_locator_spec c3wbuf c3wname (by decide) (by decide) (by decide)).2.2 1
    (by decide) (by decide) (by decide)

/-! `set_header` in terms of the splice, and structured-buffer computations. -/

theorem parse_header_nil : parse_header [] = none := rfl

theorem set_header_splice (contents H s : List Nat) (idx off : Nat) (h : MailHeader)
    (hloc : get_header_idx contents (10 :: H) = some idx)
    (hparse : parse_header (contents.drop idx) = some h)
    (hmem : memfind (contents.drop idx) h.valueRaw = some off) :
    set_header contents H s =
      contents.take (idx + off) ++ s ++ contents.drop (idx + off + h.valueRaw.length) := by
  have hidxlt : idx < contents.length := by
    by_contra hge
    push_neg at hge
    rw [List.drop_of_length_le hge, parse_header_nil] at hparse
    exact absurd hparse (by simp)
  have hcont : idx + off + h.valueRaw.length ≤ contents.length := by
    by_cases hne : h.valueRaw = []
    · have h0 : memfind (contents.drop idx) ([] : List Nat) = some 0 := rfl
      rw [hne] at hmem
      rw [h0] at hmem
      have hoff : off = 0 := (Option.some.inj hmem).symm
      rw [hne, hoff]
      simp
      omega
    · have hw := memfind_window hne hmem
      rw [List.length_drop] at hw
      omega
  have h1 : set_header contents H s =
      ((parse_header (contents.drop idx)).bind fun h2 =>
        (memfind (contents.drop idx) h2.valueRaw).bind fun off2 =>
          some (write_range
            (if s.length < h2.valueRaw.length then
              vec_truncate
                (copy_within contents (idx + off2 + h2.valueRaw.length) contents.length
                  (idx + off2 + h2.valueRaw.length + s.length - h2.valueRaw.length))
                (contents.length + s.length - h2.valueRaw.length)
            else
              copy_within
                (vec_resize contents (contents.length + s.length - h2.valueRaw.length))
                (idx + off2 + h2.valueRaw.length) contents.length
                (idx + off2 + h2.valueRaw.length + s.length - h2.valueRaw.length))
            (idx + off2) s)).getD contents := by
    simp only [set_header, hloc]
    rfl
  rw [h1, hparse, Option.some_bind, hmem, Option.some_bind, Option.getD_some]
  exact splice_eq (by omega)

/-- C2: for every call to `set_header` that locates and parses its header (the
located index, the parsed header, and the offset of the first occurrence of
the parsed raw value determine the replaced value span), all bytes strictly
before the span's start are unchanged, and the bytes strictly after the
span's original end reappear byte-for-byte, in order, immediately after the
new value, in both the growing and the shrinking case: the new buffer is
exactly prefix ++ new value ++ suffix, so no unrelated header is reordered
or duplicated. -/
theorem claim_C2_splice_frame (contents H s : List Nat) (idx off : Nat) (h : MailHeader)
    (hloc : get_header_idx contents (10 :: H) = some idx)
    (hparse : parse_header (contents.drop idx) = some h)
    (hmem : memfind (contents.drop idx) h.valueRaw = some off) :
    set_header contents H s =
      contents.take (idx + off) ++ s ++ contents.drop (idx + off + h.valueRaw.length) :=
  set_header_splice contents H s idx off h hloc hparse hmem

theorem claim_C2_witness :
    set_header c2buf [116, 111] [122] =
      c2buf.take 6 ++ [122] ++ c2buf.drop 9 := by
  have h := claim_C2_splice_frame c2buf [116, 111] [122] 3 3 ⟨[111], [97, 98, 99]⟩
    (by decide) (by decide) (by decide)
  exact h

theorem structured_take (A H tail1 : List Nat) :
    (A ++ 10 :: (H ++ 58 :: 32 :: tail1)).take (A.length + 2 + (H.length + 1)) =
      A ++ 10 :: (H ++ [58, 32]) := by
  have hshape : A ++ 10 :: (H ++ 58 :: 32 :: tail1) =
      (A ++ 10 :: (H ++ [58, 32])) ++ tail1 := by
    simp
  rw [hshape]
  apply List.take_left'
  simp [List.length_append]
  omega

theorem structured_drop (A H v tail1 : List Nat) :
    (A ++ 10 :: (H ++ 58 :: 32 :: (v ++ tail1))).drop
      (A.length + 2 + (H.length + 1) + v.length) = tail1 := by
  have hshape : A ++ 10 :: (H ++ 58 :: 32 :: (v ++ tail1)) =
      ((A ++ 10 :: (H ++ [58, 32])) ++ v) ++ tail1 := by
    simp
  rw [hshape]
  apply List.drop_left'
  simp [List.length_append]
  omega

theorem structured_drop_idx (A H tail1 : List Nat) (hH : H ≠ []) :
    (A ++ 10 :: (H ++ 58 :: 32 :: tail1)).drop (A.length + 2) =
      H.drop 1 ++ 58 :: 32 :: tail1 := by
  have hHpos : 0 < H.length := List.length_pos.mpr hH
  rw [List.drop_append]
  rw [show (10 :: (H ++ 58 :: 32 :: tail1)).drop 2 = (H ++ 58 :: 32 :: tail1).drop 1
    from rfl]
  rw [List.drop_append_of_le_length (by omega)]

/-- C1 counterexample: the buffer `"x\nto: o\r\n\r\n"` contains a locatable
header `to` (preceded by a newline), and the new value `"zz"` has positive
length and no embedded newline; yet after `set_header("to", "zz")` re-locating
and reading the header's raw value back does not yield `"zz"` — the splice
lands on the premature first occurrence of the old value inside the parsed
header-name region and corrupts the name, so the re-location fails. -/
theorem claim_C1_counterexample :
    get_header_idx c1buf (10 :: c1H) = some 3 ∧
    c1V ≠ [] ∧ 10 ∉ c1V ∧
    (get_header_raw (set_header c1buf c1H c1V) (10 :: c1H)).map MailHeader.valueRaw ≠
      some c1V := by decide

/-- C1 (amended): for a buffer of the well-formed shape
`A ++ "\n" ++ H ++ ": " ++ old ++ "\r\n" ++ rest` — with the header name `H`
nonempty and free of newlines, carriage returns and colons, the old value
newline-free and not starting with a space or tab, the new value `V` of
positive length, newline-free and not starting with a space or tab, the
locator resolving the header at the start of that line, and the searched-for
old value's first occurrence after the located offset being the true value
span — setting header `H` to `V` and then immediately re-locating and reading
`H`'s raw value back yields exactly `V`, and the buffer's total byte length
changes by exactly `len(V) - len(old value)`. -/
theorem claim_C1_roundtrip (A H old rest V : List Nat)
    (hH : H ≠ []) (hH10 : 10 ∉ H) (hH13 : 13 ∉ H) (hH58 : 58 ∉ H)
    (hold10 : 10 ∉ old) (holdsp : old.head? ≠ some 32) (holdtab : old.head? ≠ some 9)
    (hV : V ≠ []) (hV10 : 10 ∉ V) (hVsp : V.head? ≠ some 32) (hVtab : V.head? ≠ some 9)
    (hloc : get_header_idx (A ++ 10 :: (H ++ 58 :: 32 :: (old ++ 13 :: 10 :: rest)))
      (10 :: H) = some (A.length + 2))
    (hmem : memfind
      ((A ++ 10 :: (H ++ 58 :: 32 :: (old ++ 13 :: 10 :: rest))).drop (A.length + 2))
      old = some (H.length + 1)) :
    ((get_header_raw
        (set_header (A ++ 10 :: (H ++ 58 :: 32 :: (old ++ 13 :: 10 :: rest))) H V)
        (10 :: H)).map MailHeader.valueRaw = some V) ∧
    ((set_header (A ++ 10 :: (H ++ 58 :: 32 :: (old ++ 13 :: 10 :: rest))) H V).length :
        Int) =
      ((A ++ 10 :: (H ++ 58 :: 32 :: (old ++ 13 :: 10 :: rest))).length : Int) +
        V.length - old.length := by
  have hHpos : 0 < H.length := List.length_pos.mpr hH
  have hlen10 : (10 :: H).length = H.length + 1 := by simp
  -- parse at the located offset
  have hdropidx := structured_drop_idx A H (old ++ 13 :: 10 :: rest) hH
  have hparse : parse_header
      ((A ++ 10 :: (H ++ 58 :: 32 :: (old ++ 13 :: 10 :: rest))).drop (A.length + 2)) =
      some ⟨H.drop 1, old⟩ := by
    rw [hdropidx]
    exact parse_header_structured
      (fun hmm => hH58 (List.mem_of_mem_drop hmm))
      (fun hmm => hH10 (List.mem_of_mem_drop hmm))
      hold10 holdsp holdtab
  -- the splice result
  have hsplice := set_header_splice
    (A ++ 10 :: (H ++ 58 :: 32 :: (old ++ 13 :: 10 :: rest))) H V
    (A.length + 2) (H.length + 1) ⟨H.drop 1, old⟩ hloc hparse hmem
  have htake := structured_take A H (old ++ 13 :: 10 :: rest)
  have hdropend := structured_drop A H old (13 :: 10 :: rest)
  have hnew : set_header (A ++ 10 :: (H ++ 58 :: 32 :: (old ++ 13 :: 10 :: rest))) H V =
      A ++ 10 :: (H ++ 58 :: 32 :: (V ++ 13 :: 10 :: rest)) := by
    rw [hsplice]
    rw [show (⟨H.drop 1, old⟩ : MailHeader).valueRaw = old from rfl]
    rw [show A.length + 2 + (H.length + 1) + old.length =
      A.length + 2 + (H.length + 1) + old.length from rfl]
    rw [htake, hdropend]
    simp
  -- extract the search result behind hloc
  have hfind : ∃ m : AcMatch, acFind (A ++ 10 :: (H ++ 58 :: 32 :: (old ++ 13 :: 10 :: rest)))
      (10 :: H) = some m ∧ m.pattern = 0 ∧ m.start = A.length ∧
      m.stop = A.length + 1 + H.length := by
    unfold get_header_idx at hloc
    cases hf : acFind (A ++ 10 :: (H ++ 58 :: 32 :: (old ++ 13 :: 10 :: rest))) (10 :: H) with
    | none =>
      rw [hf] at hloc
      exact absurd hloc (by simp)
    | some m =>
      rw [hf] at hloc
      have hloc2 : (if m.pattern ≠ 0 then none else some (m.start + 2)) =
          some (A.length + 2) := hloc
      by_cases hp : m.pattern ≠ 0
      · rw [if_pos hp] at hloc2
        exact absurd hloc2 (by simp)
      · rw [if_neg hp] at hloc2
        push_neg at hp
        have hstart : m.start = A.length := by
          have := Option.some.inj hloc2
          omega
        obtain ⟨hat, hlenstop, hmin⟩ := acFind_min hf
        obtain ⟨hstopeq, hcases⟩ := acFindAt_sound hat
        rcases hcases with ⟨_, hle, hst, hmt⟩ | ⟨h1, _, _, _⟩ | ⟨h1, _, _, _⟩
        · refine ⟨m, rfl, hp, hstart, ?_⟩
          omega
        · omega
        · omega
  obtain ⟨m, hf, hp, hstart, hstop⟩ := hfind
  -- relocate in the new buffer
  have hpre : (A ++ 10 :: (H ++ 58 :: 32 :: (old ++ 13 :: 10 :: rest))).take
        (A.length + 2 + (H.length + 1)) =
      (A ++ 10 :: (H ++ 58 :: 32 :: (V ++ 13 :: 10 :: rest))).take
        (A.length + 2 + (H.length + 1)) := by
    rw [structured_take A H (old ++ 13 :: 10 :: rest),
      structured_take A H (V ++ 13 :: 10 :: rest)]
  have hlennew : A.length + 2 + (H.length + 1) ≤
      (A ++ 10 :: (H ++ 58 :: 32 :: (V ++ 13 :: 10 :: rest))).length := by
    simp [List.length_append]
    omega
  have hfnew : acFind (A ++ 10 :: (H ++ 58 :: 32 :: (V ++ 13 :: 10 :: rest))) (10 :: H) =
      some m := acFind_stable hpre hlennew hf (by omega)
  have hlocnew : get_header_idx (A ++ 10 :: (H ++ 58 :: 32 :: (V ++ 13 :: 10 :: rest)))
      (10 :: H) = some (A.length + 2) := by
    unfold get_header_idx
    rw [hfnew]
    have : (if m.pattern ≠ 0 then none else some (m.start + 2)) = some (A.length + 2) := by
      rw [if_neg (by omega)]
      rw [hstart]
    exact this
  -- read the value back
  have hdropnew := structured_drop_idx A H (V ++ 13 :: 10 :: rest) hH
  have hparsenew : parse_header
      ((A ++ 10 :: (H ++ 58 :: 32 :: (V ++ 13 :: 10 :: rest))).drop (A.length + 2)) =
      some ⟨H.drop 1, V⟩ := by
    rw [hdropnew]
    exact parse_header_structured
      (fun hmm => hH58 (List.mem_of_mem_drop hmm))
      (fun hmm => hH10 (List.mem_of_mem_drop hmm))
      hV10 hVsp hVtab
  constructor
  · rw [hnew]
    unfold get_header_raw
    rw [hlocnew, Option.some_bind, hparsenew]
    rfl
  · rw [hnew]
    simp [List.length_append]
    omega

theorem claim_C1_witness :
    ((get_header_raw
        (set_header ([120] ++ 10 :: ([116, 111] ++ 58 :: 32 :: ([97] ++ 13 :: 10 :: [13, 10])))
          [116, 111] [122, 121])
        (10 :: [116, 111])).map MailHeader.valueRaw = some [122, 121]) ∧
    ((set_header ([120] ++ 10 :: ([116, 111] ++ 58 :: 32 :: ([97] ++ 13 :: 10 :: [13, 10])))
        [116, 111] [122, 121]).length : Int) =
      (([120] ++ 10 :: ([116, 111] ++ 58 :: 32 :: ([97] ++ 13 :: 10 :: [13, 10]))).length :
        Int) + ([122, 121] : List Nat).length - ([97] : List Nat).length :=
  claim_C1_roundtrip [120] [116, 111] [97] [13, 10] [122, 121]
    (by decide) (by decide) (by decide) (by decide) (by decide) (by decide) (by decide)
    (by decide) (by decide) (by decide) (by decide) (by decide) (by decide)

end SmtpFilter
